import Mathlib

/-!
# Wire adapter of the UpCloud server API client

A shallow embedding of `upcloud/request/server.go` and `upcloud/server.go`.

The two source files are thin layers over Go's standard library, so the file
starts with the library pieces they call: `strings.Join`, `fmt.Sprintf`,
`strconv` integer conversion, binary64 arithmetic (for `Duration.Seconds`),
and the reflection-driven struct encoder/decoder of `encoding/json` and
`encoding/xml` working on value trees instead of bytes.

Conventions:
* a Go `string` is a sequence of bytes. Where the bytes themselves take part
  in a property (the SSH keys, which are encoded and decoded again) it is a
  `GoString`, and the encoder reads it as UTF-8 with replacement; elsewhere it
  is a Lean `String`, the text it holds;
* a Go `int`/`int64`/`time.Duration` is an `Int`, with `int` taken 64 bits wide
  (the range is checked where a decoder stores a value);
* a Go slice that is encoded or decoded is a `Slice`: `nil`, or the visible
  elements plus the part of the backing array that stays reachable through the
  capacity; a slice of which only the length and the elements are read (the
  tags of a tag request) is a plain list;
* a JSON document is a `JSON` tree; an object keeps its members in order and
  may repeat a key;
* an encoder or decoder returns `none` exactly when the Go function returns a
  non-nil error;
* a method that writes through its receiver, or that could, returns the memory
  it worked on next to its result.
-/

set_option autoImplicit false

/-! ## Go library: strings and fmt -/

namespace strings

/-- Go `strings.Join(elems, sep)`: empty for no element, the element itself for
one, otherwise the first element followed by `sep ++ s` for every later `s`. -/
def Join : List String → String → String
  | [], _ => ""
  | [e], _ => e
  | e :: es, sep => es.foldl (fun b s => b ++ sep ++ s) e

end strings

namespace fmt

/-- Body of `fmt.Sprintf` for string operands. Only the verbs this package uses
are interpreted: `%s` (the operand itself) and `%%`. A verb without operand
prints `%!s(MISSING)`, left-over operands print `%!(EXTRA ...)`. -/
def SprintfAux : List Char → List String → List Char
  | '%' :: 's' :: rest, a :: args => a.data ++ SprintfAux rest args
  | '%' :: 's' :: rest, [] => "%!s(MISSING)".data ++ SprintfAux rest []
  | '%' :: '%' :: rest, args => '%' :: SprintfAux rest args
  | c :: rest, args => c :: SprintfAux rest args
  | [], [] => []
  | [], a :: args =>
    ("%!(EXTRA " ++ ", ".intercalate ((a :: args).map ("string=" ++ ·)) ++ ")").data

/-- Go `fmt.Sprintf(format, args...)` with string operands. -/
def Sprintf (format : String) (args : List String) : String :=
  ⟨SprintfAux format.data args⟩

end fmt

/-! ## Go library: strconv -/

namespace strconv

/-- Decimal digits of `n`, most significant first, pushed in front of `acc`
(`fuel` bounds the number of digits). -/
def formatBits : Nat → Nat → List Char → List Char
  | 0, _, acc => acc
  | fuel + 1, n, acc =>
    if n < 10 then Nat.digitChar n :: acc
    else formatBits fuel (n / 10) (Nat.digitChar (n % 10) :: acc)

/-- Go `strconv.FormatInt(i, 10)`: decimal digits, with a leading `-` for a
negative value. -/
def FormatInt : Int → String
  | Int.ofNat n => ⟨formatBits (n + 1) n []⟩
  | Int.negSucc n => ⟨'-' :: formatBits (n + 2) (n + 1) []⟩

/-- Value of an ASCII decimal digit. -/
def digitVal (c : Char) : Option Nat :=
  if 48 ≤ c.toNat ∧ c.toNat ≤ 57 then some (c.toNat - 48) else none

/-- Value of a run of decimal digits, continuing from `acc`; `none` when a
character is not a digit. -/
def parseDigits : List Char → Nat → Option Nat
  | [], acc => some acc
  | c :: cs, acc =>
    match digitVal c with
    | some d => parseDigits cs (acc * 10 + d)
    | none => none

/-- Magnitude of a non-empty run of decimal digits. -/
def parseUint (ds : List Char) : Option Nat :=
  if ds = [] then none else parseDigits ds 0

/-- The magnitude `n` with a sign, when it fits the signed 64-bit range. -/
def signed64 (neg : Bool) (n : Nat) : Option Int :=
  if neg then (if n ≤ 2 ^ 63 then some (-(n : Int)) else none)
  else (if n < 2 ^ 63 then some (n : Int) else none)

/-- Go `strconv.ParseInt(s, 10, 64)`: an optional sign followed by at least one
decimal digit, the value within the signed 64-bit range. -/
def ParseInt (s : String) : Option Int :=
  match s.data with
  | [] => none
  | c :: cs =>
    if c = '-' then (parseUint cs).bind (signed64 true)
    else if c = '+' then (parseUint cs).bind (signed64 false)
    else (parseUint (c :: cs)).bind (signed64 false)

end strconv

/-! ## Go library: binary64 floating point -/

/-- An IEEE 754 binary64 value. A finite value is `(-1)^neg * mant * 2^exp`, kept
in canonical form: `2^52 ≤ mant < 2^53` and `-1074 ≤ exp ≤ 971` for a normal
number, `mant < 2^52` and `exp = -1074` for a subnormal number or zero. -/
inductive Float64 where
  | finite (neg : Bool) (mant : Nat) (exp : Int)
  | inf (neg : Bool)
  | nan
  deriving DecidableEq

namespace Float64

/-- Position of the highest set bit, by repeated halving (`fuel` bounds the
number of halvings). -/
def log2Aux : Nat → Nat → Nat
  | 0, _ => 0
  | fuel + 1, n => if n < 2 then 0 else log2Aux fuel (n / 2) + 1

/-- Floor of the base-2 logarithm of a positive number. -/
def log2 (n : Nat) : Nat := log2Aux n n

/-- The binary64 value nearest to the rational `p / q` (ties to even), with the
sign `neg`; a magnitude that rounds to `2^1024` or more overflows to infinity. -/
def round (neg : Bool) (p q : Nat) : Float64 :=
  if p = 0 ∨ q = 0 then finite neg 0 (-1074)
  else
    let e0 : Int := (log2 p : Int) - (log2 q : Int)
    let e : Int := if q * 2 ^ e0.toNat ≤ p * 2 ^ (-e0).toNat then e0 else e0 - 1
    let u : Int := max e (-1022) - 52
    let num : Nat := p * 2 ^ (-u).toNat
    let den : Nat := q * 2 ^ u.toNat
    let m0 : Nat := num / den
    let r : Nat := num % den
    let m : Nat := if den < 2 * r ∨ (2 * r = den ∧ m0 % 2 = 1) then m0 + 1 else m0
    if m = 2 ^ 53 then
      (if 971 < u + 1 then inf neg else finite neg (2 ^ 52) (u + 1))
    else
      (if 971 < u then inf neg else finite neg m u)

/-- Conversion `float64(n)` of an integer. -/
def ofInt (n : Int) : Float64 :=
  round (decide (n < 0)) n.natAbs 1

/-- IEEE 754 division `a / b`. -/
def div : Float64 → Float64 → Float64
  | nan, _ => nan
  | _, nan => nan
  | inf _, inf _ => nan
  | inf s, finite t _ _ => inf (xor s t)
  | finite s _ _, inf t => finite (xor s t) 0 (-1074)
  | finite s ma ea, finite t mb eb =>
    if mb = 0 then (if ma = 0 then nan else inf (xor s t))
    else round (xor s t) (ma * 2 ^ (ea - eb).toNat) (mb * 2 ^ (eb - ea).toNat)

/-- IEEE 754 addition `a + b`. -/
def add : Float64 → Float64 → Float64
  | nan, _ => nan
  | _, nan => nan
  | inf s, inf t => if s = t then inf s else nan
  | inf s, finite _ _ _ => inf s
  | finite _ _ _, inf t => inf t
  | finite s ma ea, finite t mb eb =>
    let e : Int := min ea eb
    let a : Int := (if s then -1 else 1) * ((ma * 2 ^ (ea - e).toNat : Nat) : Int)
    let b : Int := (if t then -1 else 1) * ((mb * 2 ^ (eb - e).toNat : Nat) : Int)
    let sum : Int := a + b
    if sum = 0 then finite (s && t) 0 (-1074)
    else round (decide (sum < 0)) (sum.natAbs * 2 ^ e.toNat) (2 ^ (-e).toNat)

/-- Conversion `int(f)` to a 64-bit integer: the fraction is discarded
(truncation toward zero). For NaN, an infinity or a value outside the 64-bit
range the Go result is implementation-specific; the amd64 result `-2^63` is used. -/
def toInt : Float64 → Int
  | finite s m e =>
    let mag : Nat := m * 2 ^ e.toNat / 2 ^ (-e).toNat
    let v : Int := if s then -(mag : Int) else (mag : Int)
    if -(2 ^ 63 : Int) ≤ v ∧ v < 2 ^ 63 then v else -(2 ^ 63 : Int)
  | _ => -(2 ^ 63 : Int)

end Float64

namespace time

/-- Go `time.Second`, in nanoseconds. -/
def Second : Int := 1000000000

/-- Go `Duration.Seconds`: the duration as a floating point number of seconds,
`float64(d / Second) + float64(d % Second) / 1e9`. -/
def Duration.Seconds (d : Int) : Float64 :=
  let sec := d.tdiv Second
  let nsec := d.tmod Second
  Float64.add (Float64.ofInt sec) (Float64.div (Float64.ofInt nsec) (Float64.ofInt 1000000000))

end time

/-! ## Go library: strings as bytes, unicode/utf8 -/

/-- A Go `string`: a sequence of bytes, valid as UTF-8 or not. -/
abbrev GoString := List UInt8

namespace utf8

/-- UTF-8 encoding of one character (Go `utf8.AppendRune` on a valid rune). -/
def EncodeRune (c : Char) : List UInt8 :=
  let n := c.toNat
  if n < 0x80 then [UInt8.ofNat n]
  else if n < 0x800 then [UInt8.ofNat (0xC0 + n / 64), UInt8.ofNat (0x80 + n % 64)]
  else if n < 0x10000 then
    [UInt8.ofNat (0xE0 + n / 4096), UInt8.ofNat (0x80 + n / 64 % 64), UInt8.ofNat (0x80 + n % 64)]
  else
    [UInt8.ofNat (0xF0 + n / 262144), UInt8.ofNat (0x80 + n / 4096 % 64),
      UInt8.ofNat (0x80 + n / 64 % 64), UInt8.ofNat (0x80 + n % 64)]

/-- Bytes of a text: the UTF-8 encodings of its characters, concatenated. -/
def encodeChars : List Char → List UInt8
  | [] => []
  | c :: cs => EncodeRune c ++ encodeChars cs

/-- The Go string holding a text. -/
def ofText (s : String) : GoString := encodeChars s.data

/-- Go `utf8.DecodeRune`: the character encoded at the front of the bytes and
the bytes after it; `none` stands for the result `(RuneError, 1)` given to an
empty input and to a byte that does not start a well-formed encoding (stray
continuation byte, over-long form, surrogate, value above U+10FFFF, truncated
sequence). -/
def DecodeRune : List UInt8 → Option (Char × List UInt8)
  | [] => none
  | b0 :: rest =>
    let x := b0.toNat
    if x < 0x80 then some (Char.ofNat x, rest)
    else if 0xC2 ≤ x ∧ x ≤ 0xDF then
      match rest with
      | b1 :: r =>
        if 0x80 ≤ b1.toNat ∧ b1.toNat ≤ 0xBF then
          some (Char.ofNat ((x - 0xC0) * 64 + (b1.toNat - 0x80)), r)
        else none
      | _ => none
    else if 0xE0 ≤ x ∧ x ≤ 0xEF then
      match rest with
      | b1 :: b2 :: r =>
        if (if x = 0xE0 then 0xA0 else 0x80) ≤ b1.toNat ∧
            b1.toNat ≤ (if x = 0xED then 0x9F else 0xBF) ∧
            0x80 ≤ b2.toNat ∧ b2.toNat ≤ 0xBF then
          some (Char.ofNat ((x - 0xE0) * 4096 + (b1.toNat - 0x80) * 64 + (b2.toNat - 0x80)), r)
        else none
      | _ => none
    else if 0xF0 ≤ x ∧ x ≤ 0xF4 then
      match rest with
      | b1 :: b2 :: b3 :: r =>
        if (if x = 0xF0 then 0x90 else 0x80) ≤ b1.toNat ∧
            b1.toNat ≤ (if x = 0xF4 then 0x8F else 0xBF) ∧
            0x80 ≤ b2.toNat ∧ b2.toNat ≤ 0xBF ∧ 0x80 ≤ b3.toNat ∧ b3.toNat ≤ 0xBF then
          some (Char.ofNat ((x - 0xF0) * 262144 + (b1.toNat - 0x80) * 4096 +
            (b2.toNat - 0x80) * 64 + (b3.toNat - 0x80)), r)
        else none
      | _ => none
    else none

/-- The text a Go string stands for when read as UTF-8 with every byte that
does not start a well-formed encoding replaced by U+FFFD (`fuel` bounds the
number of steps). -/
def toValidAux : Nat → List UInt8 → List Char
  | 0, _ => []
  | _ + 1, [] => []
  | fuel + 1, b :: bs =>
    match DecodeRune (b :: bs) with
    | some (c, rest) => c :: toValidAux fuel rest
    | none => Char.ofNat 0xFFFD :: toValidAux fuel bs

/-- The text a Go string stands for, invalid bytes replaced by U+FFFD. -/
def toValid (s : GoString) : String := ⟨toValidAux s.length s⟩

end utf8

/-! ## Go values: slices, JSON and XML documents -/

/-- A Go slice: `nil`, or the visible elements `elems` together with `spare`,
the rest of the backing array that is still reachable through the capacity. -/
inductive Slice (α : Type) where
  | nil
  | mk (elems : List α) (spare : List α)
  deriving DecidableEq

namespace Slice

variable {α : Type}

/-- A non-nil slice with exactly the given elements and no spare capacity. -/
def ofList (l : List α) : Slice α := mk l []

/-- The visible elements. -/
def toList : Slice α → List α
  | nil => []
  | mk es _ => es

/-- Go `len(s)`. -/
def len (s : Slice α) : Nat := s.toList.length

/-- Content of the backing array up to the capacity. -/
def backing : Slice α → List α
  | nil => []
  | mk es sp => es ++ sp

end Slice

/-- A JSON document. `num` keeps the number literal as written; `obj` keeps the
members in document order, repeated keys included. -/
inductive JSON where
  | null
  | bool (b : Bool)
  | num (lit : String)
  | str (s : String)
  | arr (elems : List JSON)
  | obj (members : List (String × JSON))

/-- An XML node: an element with its children, or character data. -/
inductive XML where
  | elem (name : String) (children : List XML)
  | text (s : String)

namespace JSON

mutual
/-- Decision procedure for equality of documents. -/
def decEq : (a b : JSON) → Decidable (a = b)
  | null, null => isTrue rfl
  | bool a, bool b =>
    if h : a = b then isTrue (congrArg bool h) else isFalse (fun e => h (bool.inj e))
  | num a, num b =>
    if h : a = b then isTrue (congrArg num h) else isFalse (fun e => h (num.inj e))
  | str a, str b =>
    if h : a = b then isTrue (congrArg str h) else isFalse (fun e => h (str.inj e))
  | arr as, arr bs =>
    match decEqElems as bs with
    | isTrue h => isTrue (congrArg arr h)
    | isFalse h => isFalse (fun e => h (arr.inj e))
  | obj as, obj bs =>
    match decEqMembers as bs with
    | isTrue h => isTrue (congrArg obj h)
    | isFalse h => isFalse (fun e => h (obj.inj e))
  | null, bool _ | null, num _ | null, str _ | null, arr _ | null, obj _ => isFalse nofun
  | bool _, null | bool _, num _ | bool _, str _ | bool _, arr _ | bool _, obj _ => isFalse nofun
  | num _, null | num _, bool _ | num _, str _ | num _, arr _ | num _, obj _ => isFalse nofun
  | str _, null | str _, bool _ | str _, num _ | str _, arr _ | str _, obj _ => isFalse nofun
  | arr _, null | arr _, bool _ | arr _, num _ | arr _, str _ | arr _, obj _ => isFalse nofun
  | obj _, null | obj _, bool _ | obj _, num _ | obj _, str _ | obj _, arr _ => isFalse nofun
/-- Decision procedure for equality of element lists. -/
def decEqElems : (as bs : List JSON) → Decidable (as = bs)
  | [], [] => isTrue rfl
  | a :: as, b :: bs =>
    match decEq a b, decEqElems as bs with
    | isTrue h, isTrue hs => isTrue (by rw [h, hs])
    | isFalse h, _ => isFalse (fun e => h (List.cons.inj e).1)
    | _, isFalse hs => isFalse (fun e => hs (List.cons.inj e).2)
  | [], _ :: _ | _ :: _, [] => isFalse nofun
/-- Decision procedure for equality of member lists. -/
def decEqMembers : (as bs : List (String × JSON)) → Decidable (as = bs)
  | [], [] => isTrue rfl
  | (k, a) :: as, (l, b) :: bs =>
    if hk : k = l then
      match decEq a b, decEqMembers as bs with
      | isTrue h, isTrue hs => isTrue (by rw [hk, h, hs])
      | isFalse h, _ => isFalse (fun e => h (Prod.mk.inj (List.cons.inj e).1).2)
      | _, isFalse hs => isFalse (fun e => hs (List.cons.inj e).2)
    else isFalse (fun e => hk (Prod.mk.inj (List.cons.inj e).1).1)
  | [], _ :: _ | _ :: _, [] => isFalse nofun
end

instance : DecidableEq JSON := decEq

end JSON

namespace XML

mutual
/-- Decision procedure for equality of XML nodes. -/
def decEq : (a b : XML) → Decidable (a = b)
  | text a, text b =>
    if h : a = b then isTrue (congrArg text h) else isFalse (fun e => h (text.inj e))
  | elem n as, elem m bs =>
    if hn : n = m then
      match decEqNodes as bs with
      | isTrue h => isTrue (by rw [hn, h])
      | isFalse h => isFalse (fun e => h (elem.inj e).2)
    else isFalse (fun e => hn (elem.inj e).1)
  | text _, elem _ _ | elem _ _, text _ => isFalse nofun
/-- Decision procedure for equality of node lists. -/
def decEqNodes : (as bs : List XML) → Decidable (as = bs)
  | [], [] => isTrue rfl
  | a :: as, b :: bs =>
    match decEq a b, decEqNodes as bs with
    | isTrue h, isTrue hs => isTrue (by rw [h, hs])
    | isFalse h, _ => isFalse (fun e => h (List.cons.inj e).1)
    | _, isFalse hs => isFalse (fun e => hs (List.cons.inj e).2)
  | [], _ :: _ | _ :: _, [] => isFalse nofun
end

instance : DecidableEq XML := decEq

end XML

/-! ## Go library: encoding/json and encoding/xml, encoder side -/

namespace json

variable {α : Type}

/-- Encode the elements of a list one after the other; the first failing
element fails the whole encoding. -/
def encodeElems (enc : α → Option JSON) : List α → Option (List JSON)
  | [] => some []
  | x :: xs =>
    match enc x with
    | none => none
    | some j =>
      match encodeElems enc xs with
      | none => none
      | some js => some (j :: js)

/-- Encoding of a slice: `null` for a nil slice, otherwise the array of the
encoded elements. -/
def encodeSlice (enc : α → Option JSON) : Slice α → Option JSON
  | Slice.nil => some JSON.null
  | Slice.mk es _ =>
    match encodeElems enc es with
    | none => none
    | some js => some (JSON.arr js)

/-- Encoding of a Go string: the JSON string of its text, every byte that is
not valid UTF-8 replaced by U+FFFD. -/
def encodeString (s : GoString) : Option JSON :=
  some (JSON.str (utf8.toValid s))

/-- Member emitted for a string field; with `omitempty` an empty string emits
nothing. -/
def stringField (name : String) (omitempty : Bool) (v : String) : List (String × JSON) :=
  if omitempty ∧ v = "" then [] else [(name, JSON.str v)]

/-- Member emitted for an integer field; with `omitempty` a zero emits nothing,
with the `string` option the decimal digits are wrapped in a JSON string. -/
def intField (name : String) (omitempty quoted : Bool) (v : Int) : List (String × JSON) :=
  if omitempty ∧ v = 0 then []
  else [(name, if quoted then JSON.str (strconv.FormatInt v) else JSON.num (strconv.FormatInt v))]

end json

namespace xml

/-- Go `xml.Name`. -/
structure Name where
  Space : String
  Local : String
  deriving DecidableEq

/-- Child element emitted for a string field; with `omitempty` an empty string
emits nothing. -/
def stringField (name : String) (omitempty : Bool) (v : String) : List XML :=
  if omitempty ∧ v = "" then [] else [XML.elem name [XML.text v]]

/-- Child element emitted for an integer field; with `omitempty` a zero emits
nothing. -/
def intField (name : String) (omitempty : Bool) (v : Int) : List XML :=
  if omitempty ∧ v = 0 then [] else [XML.elem name [XML.text (strconv.FormatInt v)]]

end xml

/-- Memory of one call of a value-receiver `MarshalJSON`: the record held by
the caller, the receiver `r` (the copy the call works on) and the local `v`. -/
structure MarshalFrame (α : Type) where
  caller : α
  r : α
  v : α

/-- Memory of one call of a pointer-receiver `MarshalXML`: the record behind
the receiver pointer and the `Timeout` field of the local struct handed to the
encoder (its other field is the pointer itself). -/
structure XMLFrame (α : Type) where
  target : α
  Timeout : Int

/-! ## Package request: request records and their encoders -/

namespace request

/-- CreateServerIPAddress represents an IP address for a CreateServerRequest. -/
structure CreateServerIPAddress where
  Access : String
  Family : String
  deriving DecidableEq

/-- Default struct encoding of `CreateServerIPAddress`. -/
def CreateServerIPAddress.encode (a : CreateServerIPAddress) : Option JSON :=
  some (JSON.obj (json.stringField "access" false a.Access ++
    json.stringField "family" false a.Family))

/-- CreateServerIPAddressSlice, a slice with a custom JSON marshaller. -/
abbrev CreateServerIPAddressSlice := Slice CreateServerIPAddress

/-- MarshalJSON of `CreateServerIPAddressSlice`: the slice is stored in the
field `ip_address` of a local struct, which is then encoded. -/
def CreateServerIPAddressSlice.MarshalJSON (s : CreateServerIPAddressSlice) : Option JSON :=
  match json.encodeSlice CreateServerIPAddress.encode s with
  | none => none
  | some j => some (JSON.obj [("ip_address", j)])

/-- CreateServerStorageDeviceSlice; the element type `upcloud.CreateServerStorageDevice`
is declared outside the files at hand and enters as the parameter `SD`. -/
abbrev CreateServerStorageDeviceSlice (SD : Type) := Slice SD

/-- MarshalJSON of `CreateServerStorageDeviceSlice`: the slice is stored in the
field `storage_device` of a local struct, which is then encoded. `encSD` is the
JSON encoding of one storage device. -/
def CreateServerStorageDeviceSlice.MarshalJSON {SD : Type} (encSD : SD → Option JSON)
    (s : CreateServerStorageDeviceSlice SD) : Option JSON :=
  match json.encodeSlice encSD s with
  | none => none
  | some j => some (JSON.obj [("storage_device", j)])

/-- SSHKeySlice, a slice of strings with custom JSON (un)marshallers. -/
abbrev SSHKeySlice := Slice GoString

/-- MarshalJSON of `SSHKeySlice`: the slice is stored in the field `ssh_key`
of a local struct, which is then encoded. -/
def SSHKeySlice.MarshalJSON (s : SSHKeySlice) : Option JSON :=
  match json.encodeSlice json.encodeString s with
  | none => none
  | some j => some (JSON.obj [("ssh_key", j)])

/-- LoginUser represents the login_user block when creating a new server. -/
structure LoginUser where
  CreatePassword : String
  Username : String
  SSHKeys : SSHKeySlice
  deriving DecidableEq

/-- Default struct encoding of `LoginUser`; `SSHKeys` goes through its marshaller. -/
def LoginUser.encode (u : LoginUser) : Option JSON :=
  match SSHKeySlice.MarshalJSON u.SSHKeys with
  | none => none
  | some keys =>
    some (JSON.obj (json.stringField "create_password" true u.CreatePassword ++
      json.stringField "username" true u.Username ++ [("ssh_keys", keys)]))

/-- CreateServerRequest represents a request for creating a new server. -/
structure CreateServerRequest (SD : Type) where
  XMLName : xml.Name
  AvoidHost : String
  BootOrder : String
  CoreNumber : Int
  Firewall : String
  Hostname : String
  IPAddresses : CreateServerIPAddressSlice
  LoginUser : Option request.LoginUser
  MemoryAmount : Int
  PasswordDelivery : String
  Plan : String
  StorageDevices : CreateServerStorageDeviceSlice SD
  TimeZone : String
  Title : String
  UserData : String
  VideoModel : String
  VNC : String
  VNCPassword : String
  Zone : String

/-- Member emitted for the `login_user` pointer field (`omitempty`): nothing for
a nil pointer, otherwise the encoding of the pointee. -/
def CreateServerRequest.loginUserField :
    Option request.LoginUser → Option (List (String × JSON))
  | none => some []
  | some u =>
    match LoginUser.encode u with
    | none => none
    | some j => some [("login_user", j)]

/-- Default struct encoding of `localCreateServerRequest`, field by field in
declaration order (`XMLName` carries the tag `-`). -/
def CreateServerRequest.encode {SD : Type} (encSD : SD → Option JSON)
    (r : CreateServerRequest SD) : Option JSON :=
  match CreateServerIPAddressSlice.MarshalJSON r.IPAddresses with
  | none => none
  | some ips =>
    match CreateServerRequest.loginUserField r.LoginUser with
    | none => none
    | some login =>
      match CreateServerStorageDeviceSlice.MarshalJSON encSD r.StorageDevices with
      | none => none
      | some sds =>
        some (JSON.obj (
          json.stringField "avoid_host" true r.AvoidHost ++
          json.stringField "boot_order" true r.BootOrder ++
          json.intField "core_number" true false r.CoreNumber ++
          json.stringField "firewall" true r.Firewall ++
          json.stringField "hostname" false r.Hostname ++
          [("ip_addresses", ips)] ++
          login ++
          json.intField "memory_amount" true false r.MemoryAmount ++
          json.stringField "password_delivery" true r.PasswordDelivery ++
          json.stringField "plan" true r.Plan ++
          [("storage_devices", sds)] ++
          json.stringField "timezone" true r.TimeZone ++
          json.stringField "title" false r.Title ++
          json.stringField "user_data" true r.UserData ++
          json.stringField "video_model" true r.VideoModel ++
          json.stringField "vnc" true r.VNC ++
          json.stringField "vnc_password" true r.VNCPassword ++
          json.stringField "zone" false r.Zone))

/-- MarshalJSON of `CreateServerRequest`: the record is stored in the field
`server` of a local struct, which is then encoded. -/
def CreateServerRequest.MarshalJSON {SD : Type} (encSD : SD → Option JSON)
    (r : CreateServerRequest SD) : Option JSON :=
  let v := r
  match CreateServerRequest.encode encSD v with
  | none => none
  | some j => some (JSON.obj [("server", j)])

/-- StopServerRequest represents a request to stop a server; `Timeout` is a
`time.Duration`, a count of nanoseconds. -/
structure StopServerRequest where
  XMLName : xml.Name
  UUID : String
  StopType : String
  Timeout : Int
  deriving DecidableEq

/-- RequestURL of a stop request. -/
def StopServerRequest.RequestURL (r : StopServerRequest) : String :=
  fmt.Sprintf "/server/%s/stop" [r.UUID]

/-- Default struct encoding of `localStopServerRequest` (`XMLName` and `UUID`
carry the tag `-`). -/
def StopServerRequest.encode (r : StopServerRequest) : Option JSON :=
  some (JSON.obj (json.stringField "stop_type" true r.StopType ++
    json.intField "timeout" true true r.Timeout))

/-- The zero value of `StopServerRequest`. -/
def StopServerRequest.zero : StopServerRequest := ⟨⟨"", ""⟩, "", "", 0⟩

/-- MarshalJSON of `StopServerRequest`, statement by statement on the memory
of the call: the call copies the caller's record into the receiver `r` and
declares the zero local `v`; `v` receives a copy of `r`; the timeout of `v` is
divided by `1e9`; `v` is encoded under the member `stop_server`. -/
def StopServerRequest.MarshalJSON.exec (caller : StopServerRequest) :
    MarshalFrame StopServerRequest × Option JSON :=
  let m0 : MarshalFrame StopServerRequest := ⟨caller, caller, StopServerRequest.zero⟩
  let m1 : MarshalFrame StopServerRequest := { m0 with v := m0.r }
  let m2 : MarshalFrame StopServerRequest :=
    { m1 with v := { m1.v with Timeout := m1.v.Timeout.tdiv 1000000000 } }
  (m2,
    match StopServerRequest.encode m2.v with
    | none => none
    | some j => some (JSON.obj [("stop_server", j)]))

/-- MarshalJSON of `StopServerRequest`: the bytes returned. -/
def StopServerRequest.MarshalJSON (r : StopServerRequest) : Option JSON :=
  (StopServerRequest.MarshalJSON.exec r).2

/-- MarshalXML of `StopServerRequest` (pointer receiver) on the memory of the
call. The value encoded is a local struct with the field `Timeout int` set to
`int(r.Timeout.Seconds())` and the embedded pointer `*Alias` to the receiver,
which the encoder reads through: the outer `timeout` field hides the embedded
one, the root element takes the name of the embedded `XMLName` tag. -/
def StopServerRequest.MarshalXML.exec (r : StopServerRequest) :
    XMLFrame StopServerRequest × Option XML :=
  let m : XMLFrame StopServerRequest := ⟨r, Float64.toInt (time.Duration.Seconds r.Timeout)⟩
  (m, some (XML.elem "stop_server"
    (xml.intField "timeout" true m.Timeout ++
      xml.stringField "stop_type" true m.target.StopType)))

/-- MarshalXML of `StopServerRequest`: the document written. -/
def StopServerRequest.MarshalXML (r : StopServerRequest) : Option XML :=
  (StopServerRequest.MarshalXML.exec r).2

/-- RestartServerRequest represents a request to restart a server; `Timeout` is
a `time.Duration`, a count of nanoseconds. -/
structure RestartServerRequest where
  XMLName : xml.Name
  UUID : String
  StopType : String
  Timeout : Int
  TimeoutAction : String
  deriving DecidableEq

/-- RequestURL of a restart request. -/
def RestartServerRequest.RequestURL (r : RestartServerRequest) : String :=
  fmt.Sprintf "/server/%s/restart" [r.UUID]

/-- Default struct encoding of `localRestartServerRequest` (`XMLName` and `UUID`
carry the tag `-`). -/
def RestartServerRequest.encode (r : RestartServerRequest) : Option JSON :=
  some (JSON.obj (json.stringField "stop_type" true r.StopType ++
    json.intField "timeout" true true r.Timeout ++
    json.stringField "timeout_action" true r.TimeoutAction))

/-- The zero value of `RestartServerRequest`. -/
def RestartServerRequest.zero : RestartServerRequest := ⟨⟨"", ""⟩, "", "", 0, ""⟩

/-- MarshalJSON of `RestartServerRequest`, statement by statement on the memory
of the call: the call copies the caller's record into the receiver `r` and
declares the zero local `v`; `v` receives a copy of `r`; the timeout of `v` is
divided by `1e9`; `v` is encoded under the member `restart_server`. -/
def RestartServerRequest.MarshalJSON.exec (caller : RestartServerRequest) :
    MarshalFrame RestartServerRequest × Option JSON :=
  let m0 : MarshalFrame RestartServerRequest := ⟨caller, caller, RestartServerRequest.zero⟩
  let m1 : MarshalFrame RestartServerRequest := { m0 with v := m0.r }
  let m2 : MarshalFrame RestartServerRequest :=
    { m1 with v := { m1.v with Timeout := m1.v.Timeout.tdiv 1000000000 } }
  (m2,
    match RestartServerRequest.encode m2.v with
    | none => none
    | some j => some (JSON.obj [("restart_server", j)]))

/-- MarshalJSON of `RestartServerRequest`: the bytes returned. -/
def RestartServerRequest.MarshalJSON (r : RestartServerRequest) : Option JSON :=
  (RestartServerRequest.MarshalJSON.exec r).2

/-- MarshalXML of `RestartServerRequest` (pointer receiver) on the memory of
the call; built like the stop request, with the additional `timeout_action`
field read through the embedded pointer. -/
def RestartServerRequest.MarshalXML.exec (r : RestartServerRequest) :
    XMLFrame RestartServerRequest × Option XML :=
  let m : XMLFrame RestartServerRequest :=
    ⟨r, Float64.toInt (time.Duration.Seconds r.Timeout)⟩
  (m, some (XML.elem "restart_server"
    (xml.intField "timeout" true m.Timeout ++
      xml.stringField "stop_type" true m.target.StopType ++
      xml.stringField "timeout_action" true m.target.TimeoutAction)))

/-- MarshalXML of `RestartServerRequest`: the document written. -/
def RestartServerRequest.MarshalXML (r : RestartServerRequest) : Option XML :=
  (RestartServerRequest.MarshalXML.exec r).2

/-- ModifyServerRequest represents a request to modify a server. -/
structure ModifyServerRequest where
  XMLName : xml.Name
  UUID : String
  AvoidHost : String
  BootOrder : String
  CoreNumber : Int
  Firewall : String
  Hostname : String
  MemoryAmount : Int
  Plan : String
  TimeZone : String
  Title : String
  VideoModel : String
  VNC : String
  VNCPassword : String
  deriving DecidableEq

/-- Default struct encoding of `localModifyServerRequest`, field by field in
declaration order (`XMLName` and `UUID` carry the tag `-`). -/
def ModifyServerRequest.encode (r : ModifyServerRequest) : Option JSON :=
  some (JSON.obj (
    json.stringField "avoid_host" true r.AvoidHost ++
    json.stringField "boot_order" true r.BootOrder ++
    json.intField "core_number" true true r.CoreNumber ++
    json.stringField "firewall" true r.Firewall ++
    json.stringField "hostname" true r.Hostname ++
    json.intField "memory_amount" true true r.MemoryAmount ++
    json.stringField "plan" true r.Plan ++
    json.stringField "timezone" true r.TimeZone ++
    json.stringField "title" true r.Title ++
    json.stringField "video_model" true r.VideoModel ++
    json.stringField "vnc" true r.VNC ++
    json.stringField "vnc_password" true r.VNCPassword))

/-- MarshalJSON of `ModifyServerRequest`: the record is stored in the field
`server` of a local struct, which is then encoded. -/
def ModifyServerRequest.MarshalJSON (r : ModifyServerRequest) : Option JSON :=
  let v := r
  match ModifyServerRequest.encode v with
  | none => none
  | some j => some (JSON.obj [("server", j)])

/-- RequestURL of a modify request. -/
def ModifyServerRequest.RequestURL (r : ModifyServerRequest) : String :=
  fmt.Sprintf "/server/%s" [r.UUID]

end request

/-! ## Package request: endpoint addresses -/

namespace request

/-- TagServerRequest represents a request to tag a server with one or more tags. -/
structure TagServerRequest where
  UUID : String
  Tags : List String

/-- RequestURL of a tag request. -/
def TagServerRequest.RequestURL (r : TagServerRequest) : String :=
  fmt.Sprintf "/server/%s/tag/%s" [r.UUID, strings.Join r.Tags ","]

/-- UntagServerRequest represents a request to remove one or more tags from a server. -/
structure UntagServerRequest where
  UUID : String
  Tags : List String

/-- RequestURL of an untag request. -/
def UntagServerRequest.RequestURL (r : UntagServerRequest) : String :=
  fmt.Sprintf "/server/%s/untag/%s" [r.UUID, strings.Join r.Tags ","]

end request


/-! ## Go library: encoding/json, decoder side

`json.Unmarshal` first checks the syntax of the bytes and then stores the
document into the destination by reflection. The functions below are the second
step, on a document that is already a `JSON` tree. Each one takes the current
value of the destination, since a member that is absent or `null` leaves a
field as it is and a repeated key stores into the same field again. -/

namespace strconv

/-- Longest prefix of decimal digits and the remaining characters. -/
def spanDigits : List Char → List Char × List Char
  | [] => ([], [])
  | c :: cs =>
    match digitVal c with
    | some _ => ((spanDigits cs).1.cons c, (spanDigits cs).2)
    | none => ([], c :: cs)

/-- Exponent part of a number literal: nothing, or `e`/`E`, an optional sign and
at least one digit, up to the end of the literal. -/
def parseExponent : List Char → Option Int
  | [] => some 0
  | c :: cs =>
    if c = 'e' ∨ c = 'E' then
      match cs with
      | [] => none
      | sg :: ds =>
        if sg = '-' then (parseUint ds).map (fun n => -(n : Int))
        else if sg = '+' then (parseUint ds).map (fun n => (n : Int))
        else (parseUint (sg :: ds)).map (fun n => (n : Int))
    else none

/-- Exact reading of a JSON number literal (optional `-`, integer digits,
optional fraction, optional exponent): the sign and the magnitude as the
fraction `p / q`. -/
def parseDecimal (s : String) : Option (Bool × Nat × Nat) :=
  let neg : Bool := s.data.head? = some '-'
  let body : List Char := if neg then s.data.tail else s.data
  let ip := (spanDigits body).1
  let rest := (spanDigits body).2
  if ip = [] then none
  else
    let fp : List Char := match rest with
      | '.' :: r => (spanDigits r).1
      | _ => []
    let tail : Option (List Char) := match rest with
      | '.' :: r => if (spanDigits r).1 = [] then none else some (spanDigits r).2
      | _ => some rest
    match tail with
    | none => none
    | some t =>
      match parseDigits (ip ++ fp) 0, parseExponent t with
      | some d, some e =>
        let e10 : Int := e - (fp.length : Int)
        some (neg, d * 10 ^ e10.toNat, 10 ^ (-e10).toNat)
      | _, _ => none

/-- Range check of a conversion result: an infinity is a range error. -/
def inRange : Float64 → Option Float64
  | Float64.finite sg m x => some (Float64.finite sg m x)
  | _ => none

/-- Go `strconv.ParseFloat(s, 64)` on a JSON number literal: the binary64 value
nearest to the number written; a literal that rounds to an infinity is a range
error. -/
def ParseFloat (s : String) : Option Float64 :=
  match parseDecimal s with
  | none => none
  | some (neg, p, q) => inRange (Float64.round neg p q)

end strconv

namespace json

variable {α T : Type}

/-- Case folding of one character of an object key, as in `foldName`: ASCII
letters go to upper case, and the two non-ASCII characters whose case orbit
contains an ASCII letter (U+017F long s, U+212A Kelvin sign) go to that letter.
Other characters are left alone, which gives the same matches against the
ASCII-only field names of this package. -/
def foldRune (c : Char) : Char :=
  if c = Char.ofNat 0x17F then 'S'
  else if c = Char.ofNat 0x212A then 'K'
  else c.toUpper

/-- Folded form of a key or field name. -/
def foldName (s : String) : List Char := s.data.map foldRune

/-- One exported struct field as the decoder sees it: the JSON name from the
tag and the function storing a member value into the field. -/
structure Field (T : Type) where
  name : String
  store : JSON → T → Option T

/-- Field addressed by an object key: the field with exactly that name, else the
first field whose name matches ignoring case. -/
def findField (fields : List (Field T)) (key : String) : Option (Field T) :=
  match fields.find? (fun f => f.name == key) with
  | some f => some f
  | none => fields.find? (fun f => foldName f.name == foldName key)

/-- Store the members of an object one after the other, in document order; a
key that addresses no field is skipped. -/
def decodeMembers (fields : List (Field T)) : List (String × JSON) → T → Option T
  | [], cur => some cur
  | (k, v) :: rest, cur =>
    match findField fields k with
    | none => decodeMembers fields rest cur
    | some f =>
      match f.store v cur with
      | none => none
      | some next => decodeMembers fields rest next

/-- Store a document into a struct: `null` leaves the struct alone, an object
stores its members, anything else is a type error. -/
def decodeStruct (fields : List (Field T)) (j : JSON) (cur : T) : Option T :=
  match j with
  | JSON.null => some cur
  | JSON.obj ms => decodeMembers fields ms cur
  | _ => none

/-- Store a document into a `string`: `null` leaves it alone, a JSON string
replaces it, anything else is a type error. -/
def storeString (j : JSON) (cur : String) : Option String :=
  match j with
  | JSON.null => some cur
  | JSON.str s => some s
  | _ => none

/-- Store a document into a `string` kept as bytes: `null` leaves it alone, a
JSON string replaces it by the UTF-8 bytes of its text, anything else is a type
error. -/
def storeGoString (j : JSON) (cur : GoString) : Option GoString :=
  match j with
  | JSON.null => some cur
  | JSON.str s => some (utf8.ofText s)
  | _ => none

/-- Store a document into an `int`: `null` leaves it alone, a number literal
must parse as a 64-bit integer, anything else is a type error. -/
def storeInt (j : JSON) (cur : Int) : Option Int :=
  match j with
  | JSON.null => some cur
  | JSON.num lit => strconv.ParseInt lit
  | _ => none

/-- Store a document into a `float64`: `null` leaves it alone, a number literal
must parse without range error, anything else is a type error. -/
def storeFloat64 (j : JSON) (cur : Float64) : Option Float64 :=
  match j with
  | JSON.null => some cur
  | JSON.num lit => strconv.ParseFloat lit
  | _ => none

/-- Store the content of a JSON string into an `int` field tagged `string`
(`literalStore` with `fromQuoted`): the word `null` leaves the field alone; a
content starting with `-` or a digit must parse as a 64-bit integer; every
other content is an error. -/
def storeQuotedInt (s : String) (cur : Int) : Option Int :=
  if s = "null" then some cur
  else
    match s.data with
    | [] => none
    | c :: _ => if c = '-' ∨ (strconv.digitVal c).isSome then strconv.ParseInt s else none

/-- Store a document into an `int` field tagged `string`: `null` leaves it
alone, a JSON string is stored by `storeQuotedInt`, an unquoted value is an
error. -/
def storeIntString (j : JSON) (cur : Int) : Option Int :=
  match j with
  | JSON.null => some cur
  | JSON.str s => storeQuotedInt s cur
  | _ => none

/-- Store the elements of an array into the backing array of a slice: element
`i` is stored into the value found at index `i` of the backing array, or into a
zero value beyond it. -/
def decodeElems (elem : JSON → α → Option α) (zero : α) : List JSON → List α → Option (List α)
  | [], _ => some []
  | x :: xs, backing =>
    match elem x (backing.headD zero) with
    | none => none
    | some a =>
      match decodeElems elem zero xs backing.tail with
      | none => none
      | some rest => some (a :: rest)

/-- Store a document into a slice: `null` makes it nil, an empty array makes it
a fresh empty slice, a non-empty array stores its elements and sets the length,
anything else is a type error. -/
def decodeSlice (elem : JSON → α → Option α) (zero : α) (j : JSON) (cur : Slice α) :
    Option (Slice α) :=
  match j with
  | JSON.null => some Slice.nil
  | JSON.arr [] => some (Slice.mk [] [])
  | JSON.arr (x :: xs) =>
    match decodeElems elem zero (x :: xs) cur.backing with
    | none => none
    | some es => some (Slice.mk es (cur.backing.drop (x :: xs).length))
  | _ => none

end json

/-- Result of a pointer-receiver `UnmarshalJSON`: the receiver after the call,
and whether the error returned is non-nil. -/
structure Outcome (α : Type) where
  recv : α
  failed : Bool
  deriving DecidableEq

/-! ## Package upcloud: responses and their decoders -/

namespace upcloud

/-- TagSlice, a slice of strings with a custom JSON unmarshaller. -/
abbrev TagSlice := Slice String

/-- The local struct of `TagSlice.UnmarshalJSON`. -/
structure TagSlice.local where
  Tags : Slice String
  deriving DecidableEq

/-- Fields of the local struct of `TagSlice.UnmarshalJSON`. -/
def TagSlice.local.fields : List (json.Field TagSlice.local) :=
  [⟨"tag", fun j v => (json.decodeSlice json.storeString "" j v.Tags).map (fun t => { v with Tags := t })⟩]

/-- UnmarshalJSON of `TagSlice`: the document is stored into a zero local
struct; on error the error is returned, otherwise the receiver is set to the
`tag` list. -/
def TagSlice.UnmarshalJSON (t : TagSlice) (b : JSON) : Outcome TagSlice :=
  match json.decodeStruct TagSlice.local.fields b ⟨Slice.nil⟩ with
  | none => ⟨t, true⟩
  | some v => ⟨v.Tags, false⟩

/-- Server represents a server. -/
structure Server where
  CoreNumber : Int
  Hostname : String
  License : Float64
  MemoryAmount : Int
  Plan : String
  Progress : Int
  State : String
  Tags : TagSlice
  Title : String
  UUID : String
  Zone : String
  deriving DecidableEq

/-- The zero value of `Server`. -/
def Server.zero : Server :=
  ⟨0, "", Float64.finite false 0 (-1074), 0, "", 0, "", Slice.nil, "", "", ""⟩

/-- Store a member value into a field that has an `UnmarshalJSON` method: the
method runs on the field, and its error aborts the decoding. -/
def storeTagSlice (j : JSON) (cur : TagSlice) : Option TagSlice :=
  match TagSlice.UnmarshalJSON cur j with
  | ⟨_, true⟩ => none
  | ⟨t, false⟩ => some t

/-- Fields of `Server` with their JSON names, in declaration order. -/
def Server.fields : List (json.Field Server) :=
  [⟨"core_number", fun j s => (json.storeIntString j s.CoreNumber).map (fun n => { s with CoreNumber := n })⟩,
   ⟨"hostname", fun j s => (json.storeString j s.Hostname).map (fun x => { s with Hostname := x })⟩,
   ⟨"license", fun j s => (json.storeFloat64 j s.License).map (fun x => { s with License := x })⟩,
   ⟨"memory_amount", fun j s => (json.storeIntString j s.MemoryAmount).map (fun n => { s with MemoryAmount := n })⟩,
   ⟨"plan", fun j s => (json.storeString j s.Plan).map (fun x => { s with Plan := x })⟩,
   ⟨"progress", fun j s => (json.storeIntString j s.Progress).map (fun n => { s with Progress := n })⟩,
   ⟨"state", fun j s => (json.storeString j s.State).map (fun x => { s with State := x })⟩,
   ⟨"tags", fun j s => (storeTagSlice j s.Tags).map (fun x => { s with Tags := x })⟩,
   ⟨"title", fun j s => (json.storeString j s.Title).map (fun x => { s with Title := x })⟩,
   ⟨"uuid", fun j s => (json.storeString j s.UUID).map (fun x => { s with UUID := x })⟩,
   ⟨"zone", fun j s => (json.storeString j s.Zone).map (fun x => { s with Zone := x })⟩]

/-- Store a document into a `Server` (the type has no unmarshaller of its own). -/
def Server.decode (j : JSON) (cur : Server) : Option Server :=
  json.decodeStruct Server.fields j cur

/-- Default struct encoding of `Server`, field by field in declaration order.
`fmtFloat` is the text `strconv.AppendFloat` gives a finite `float64`; NaN and
the infinities are an encoding error. -/
def Server.encode (fmtFloat : Float64 → String) (s : Server) : Option JSON :=
  match s.License with
  | Float64.finite sg m e =>
    match json.encodeSlice (fun k => some (JSON.str k)) s.Tags with
    | none => none
    | some tags =>
      some (JSON.obj (
        json.intField "core_number" false true s.CoreNumber ++
        json.stringField "hostname" false s.Hostname ++
        [("license", JSON.num (fmtFloat (Float64.finite sg m e)))] ++
        json.intField "memory_amount" false true s.MemoryAmount ++
        json.stringField "plan" false s.Plan ++
        json.intField "progress" false true s.Progress ++
        json.stringField "state" false s.State ++
        [("tags", tags)] ++
        json.stringField "title" false s.Title ++
        json.stringField "uuid" false s.UUID ++
        json.stringField "zone" false s.Zone))
  | _ => none

set_option linter.dupNamespace false in
/-- Servers represents a /server response. -/
structure Servers where
  Servers : Slice Server
  deriving DecidableEq

/-- The type `serverWrapper` local to `Servers.UnmarshalJSON`. -/
structure serverWrapper where
  Servers : Slice Server
  deriving DecidableEq

/-- Fields of `serverWrapper`. -/
def serverWrapper.fields : List (json.Field serverWrapper) :=
  [⟨"server", fun j w => (json.decodeSlice Server.decode Server.zero j w.Servers).map
    (fun x => { w with Servers := x })⟩]

/-- The local struct `v` of `Servers.UnmarshalJSON`. -/
structure Servers.local where
  Servers : serverWrapper
  deriving DecidableEq

/-- Fields of the local struct of `Servers.UnmarshalJSON`. -/
def Servers.local.fields : List (json.Field Servers.local) :=
  [⟨"servers", fun j v => (json.decodeStruct serverWrapper.fields j v.Servers).map
    (fun x => { v with Servers := x })⟩]

/-- UnmarshalJSON of `Servers`: the document is stored into a zero local
struct; on error the error is returned, otherwise the receiver's list is set to
the inner `server` list. -/
def Servers.UnmarshalJSON (s : upcloud.Servers) (b : JSON) : Outcome upcloud.Servers :=
  match json.decodeStruct Servers.local.fields b ⟨⟨Slice.nil⟩⟩ with
  | none => ⟨s, true⟩
  | some v => ⟨{ s with Servers := v.Servers.Servers }, false⟩

/-- Default struct encoding of `Servers` (the type has no marshaller of its
own): the single member `servers` holds the list. -/
def Servers.encode (fmtFloat : Float64 → String) (s : upcloud.Servers) : Option JSON :=
  match json.encodeSlice (Server.encode fmtFloat) s.Servers with
  | none => none
  | some j => some (JSON.obj [("servers", j)])

end upcloud

/-! ## Package request: further endpoint addresses and the SSH key decoder -/

namespace request

/-- GetServerDetailsRequest represents a request for retrieving details about a server. -/
structure GetServerDetailsRequest where
  UUID : String

/-- RequestURL of a details request. -/
def GetServerDetailsRequest.RequestURL (r : GetServerDetailsRequest) : String :=
  fmt.Sprintf "/server/%s" [r.UUID]

/-- DeleteServerRequest represents a request to delete a server. -/
structure DeleteServerRequest where
  UUID : String

/-- RequestURL of a delete request. -/
def DeleteServerRequest.RequestURL (r : DeleteServerRequest) : String :=
  fmt.Sprintf "/server/%s" [r.UUID]

/-- DeleteServerAndStoragesRequest represents a request to delete a server and
all attached storages. -/
structure DeleteServerAndStoragesRequest where
  UUID : String

/-- RequestURL of a delete-with-storages request. -/
def DeleteServerAndStoragesRequest.RequestURL (r : DeleteServerAndStoragesRequest) : String :=
  fmt.Sprintf "/server/%s/?storages=1" [r.UUID]

/-- The zero value of `CreateServerRequest`. -/
def CreateServerRequest.zero {SD : Type} : CreateServerRequest SD :=
  { XMLName := ⟨"", ""⟩, AvoidHost := "", BootOrder := "", CoreNumber := 0, Firewall := "",
    Hostname := "", IPAddresses := Slice.nil, LoginUser := none, MemoryAmount := 0,
    PasswordDelivery := "", Plan := "", StorageDevices := Slice.nil, TimeZone := "",
    Title := "", UserData := "", VideoModel := "", VNC := "", VNCPassword := "", Zone := "" }

/-- The local struct of `SSHKeySlice.UnmarshalJSON`. -/
structure SSHKeySlice.local where
  SSHKey : Slice GoString
  deriving DecidableEq

/-- Fields of the local struct of `SSHKeySlice.UnmarshalJSON`. -/
def SSHKeySlice.local.fields : List (json.Field SSHKeySlice.local) :=
  [⟨"ssh_key", fun j v => (json.decodeSlice json.storeGoString [] j v.SSHKey).map
    (fun x => { v with SSHKey := x })⟩]

/-- UnmarshalJSON of `SSHKeySlice`: the document is stored into a zero local
struct; on error the error is returned, otherwise the receiver is set to the
`ssh_key` list. -/
def SSHKeySlice.UnmarshalJSON (s : SSHKeySlice) (b : JSON) : Outcome SSHKeySlice :=
  match json.decodeStruct SSHKeySlice.local.fields b ⟨Slice.nil⟩ with
  | none => ⟨s, true⟩
  | some v => ⟨v.SSHKey, false⟩

end request

/-! ## Package upcloud: server details -/

namespace json

/-- What the decoder uses of an element type declared outside the files at
hand: its zero value and the function storing a document into a value. -/
structure Elem (α : Type) where
  zero : α
  store : JSON → α → Option α

/-- Fields an embedded struct contributes to the embedding struct: a field
whose name is also declared by the embedding struct itself is hidden by the
shallower declaration; every other one is reached through the embedded value
(`get` reads it, `set` writes it back). -/
def promote {S T : Type} (own : List String) (get : T → S) (set : T → S → T)
    (inner : List (Field S)) : List (Field T) :=
  (inner.filter (fun f => !own.contains f.name)).map
    (fun f => ⟨f.name, fun j t => (f.store j (get t)).map (set t)⟩)

end json

namespace upcloud

/-- IPAddressSlice; the element type `IPAddress` is declared outside the files
at hand and enters as the parameter `IP`. -/
abbrev IPAddressSlice (IP : Type) := Slice IP

/-- The local struct of `IPAddressSlice.UnmarshalJSON`. -/
structure IPAddressSlice.local (IP : Type) where
  IPAddresses : Slice IP

/-- Fields of the local struct of `IPAddressSlice.UnmarshalJSON`. -/
def IPAddressSlice.local.fields {IP : Type} (ip : json.Elem IP) :
    List (json.Field (IPAddressSlice.local IP)) :=
  [⟨"ip_address", fun j v => (json.decodeSlice ip.store ip.zero j v.IPAddresses).map
    (fun x => { v with IPAddresses := x })⟩]

/-- UnmarshalJSON of `IPAddressSlice`: the document is stored into a zero local
struct; on error the error is returned, otherwise the receiver is set to the
`ip_address` list. -/
def IPAddressSlice.UnmarshalJSON {IP : Type} (ip : json.Elem IP) (i : IPAddressSlice IP)
    (b : JSON) : Outcome (IPAddressSlice IP) :=
  match json.decodeStruct (IPAddressSlice.local.fields ip) b ⟨Slice.nil⟩ with
  | none => ⟨i, true⟩
  | some v => ⟨v.IPAddresses, false⟩

/-- ServerStorageDeviceSlice; the element type `ServerStorageDevice` is declared
outside the files at hand and enters as the parameter `SD`. -/
abbrev ServerStorageDeviceSlice (SD : Type) := Slice SD

/-- The local struct of `ServerStorageDeviceSlice.UnmarshalJSON`. -/
structure ServerStorageDeviceSlice.local (SD : Type) where
  StorageDevices : Slice SD

/-- Fields of the local struct of `ServerStorageDeviceSlice.UnmarshalJSON`. -/
def ServerStorageDeviceSlice.local.fields {SD : Type} (sd : json.Elem SD) :
    List (json.Field (ServerStorageDeviceSlice.local SD)) :=
  [⟨"storage_device", fun j v => (json.decodeSlice sd.store sd.zero j v.StorageDevices).map
    (fun x => { v with StorageDevices := x })⟩]

/-- UnmarshalJSON of `ServerStorageDeviceSlice`: the document is stored into a
zero local struct; on error the error is returned, otherwise the receiver is
set to the `storage_device` list. -/
def ServerStorageDeviceSlice.UnmarshalJSON {SD : Type} (sd : json.Elem SD)
    (s : ServerStorageDeviceSlice SD) (b : JSON) : Outcome (ServerStorageDeviceSlice SD) :=
  match json.decodeStruct (ServerStorageDeviceSlice.local.fields sd) b ⟨Slice.nil⟩ with
  | none => ⟨s, true⟩
  | some v => ⟨v.StorageDevices, false⟩

/-- ServerDetails represents details about a server; `Server` is the embedded
struct. -/
structure ServerDetails (IP SD : Type) where
  Server : upcloud.Server
  BootOrder : String
  CoreNumber : Int
  Firewall : String
  Host : Int
  IPAddresses : IPAddressSlice IP
  NICModel : String
  StorageDevices : ServerStorageDeviceSlice SD
  Timezone : String
  VideoModel : String
  VNC : String
  VNCHost : String
  VNCPassword : String
  VNCPort : Int
  deriving DecidableEq

/-- The zero value of `ServerDetails`. -/
def ServerDetails.zero {IP SD : Type} : ServerDetails IP SD :=
  ⟨Server.zero, "", 0, "", 0, Slice.nil, "", Slice.nil, "", "", "", "", "", 0⟩

/-- Store a member value into the `ip_addresses` field through its
`UnmarshalJSON` method; the method's error aborts the decoding. -/
def storeIPAddressSlice {IP : Type} (ip : json.Elem IP) (j : JSON) (cur : IPAddressSlice IP) :
    Option (IPAddressSlice IP) :=
  match IPAddressSlice.UnmarshalJSON ip cur j with
  | ⟨_, true⟩ => none
  | ⟨x, false⟩ => some x

/-- Store a member value into the `storage_devices` field through its
`UnmarshalJSON` method; the method's error aborts the decoding. -/
def storeStorageDeviceSlice {SD : Type} (sd : json.Elem SD) (j : JSON)
    (cur : ServerStorageDeviceSlice SD) : Option (ServerStorageDeviceSlice SD) :=
  match ServerStorageDeviceSlice.UnmarshalJSON sd cur j with
  | ⟨_, true⟩ => none
  | ⟨x, false⟩ => some x

/-- JSON names of the fields `ServerDetails` declares itself. -/
def ServerDetails.ownNames : List String :=
  ["boot_order", "core_number", "firewall", "host", "ip_addresses", "nic_model",
   "storage_devices", "timezone", "video_model", "vnc", "vnc_host", "vnc_password", "vnc_port"]

/-- Fields `ServerDetails` declares itself, with their JSON names, in
declaration order. -/
def ServerDetails.ownFields {IP SD : Type} (ip : json.Elem IP) (sd : json.Elem SD) :
    List (json.Field (ServerDetails IP SD)) :=
  [⟨"boot_order", fun j s => (json.storeString j s.BootOrder).map (fun x => { s with BootOrder := x })⟩,
   ⟨"core_number", fun j s => (json.storeIntString j s.CoreNumber).map (fun n => { s with CoreNumber := n })⟩,
   ⟨"firewall", fun j s => (json.storeString j s.Firewall).map (fun x => { s with Firewall := x })⟩,
   ⟨"host", fun j s => (json.storeInt j s.Host).map (fun n => { s with Host := n })⟩,
   ⟨"ip_addresses", fun j s => (storeIPAddressSlice ip j s.IPAddresses).map (fun x => { s with IPAddresses := x })⟩,
   ⟨"nic_model", fun j s => (json.storeString j s.NICModel).map (fun x => { s with NICModel := x })⟩,
   ⟨"storage_devices", fun j s => (storeStorageDeviceSlice sd j s.StorageDevices).map (fun x => { s with StorageDevices := x })⟩,
   ⟨"timezone", fun j s => (json.storeString j s.Timezone).map (fun x => { s with Timezone := x })⟩,
   ⟨"video_model", fun j s => (json.storeString j s.VideoModel).map (fun x => { s with VideoModel := x })⟩,
   ⟨"vnc", fun j s => (json.storeString j s.VNC).map (fun x => { s with VNC := x })⟩,
   ⟨"vnc_host", fun j s => (json.storeString j s.VNCHost).map (fun x => { s with VNCHost := x })⟩,
   ⟨"vnc_password", fun j s => (json.storeString j s.VNCPassword).map (fun x => { s with VNCPassword := x })⟩,
   ⟨"vnc_port", fun j s => (json.storeInt j s.VNCPort).map (fun n => { s with VNCPort := n })⟩]

/-- Fields of `localServerDetails` as the decoder sees them, in index order:
the fields promoted from the embedded `Server` (its `core_number` is hidden by
the one `ServerDetails` declares), then the fields declared by `ServerDetails`. -/
def ServerDetails.fields {IP SD : Type} (ip : json.Elem IP) (sd : json.Elem SD) :
    List (json.Field (ServerDetails IP SD)) :=
  json.promote ServerDetails.ownNames (fun s => s.Server) (fun s x => { s with Server := x })
    Server.fields ++ ServerDetails.ownFields ip sd

/-- The local struct `v` of `ServerDetails.UnmarshalJSON`. -/
structure ServerDetails.local (IP SD : Type) where
  ServerDetails : upcloud.ServerDetails IP SD

/-- Fields of the local struct of `ServerDetails.UnmarshalJSON`. -/
def ServerDetails.local.fields {IP SD : Type} (ip : json.Elem IP) (sd : json.Elem SD) :
    List (json.Field (ServerDetails.local IP SD)) :=
  [⟨"server", fun j v => (json.decodeStruct (ServerDetails.fields ip sd) j v.ServerDetails).map
    (fun x => { v with ServerDetails := x })⟩]

/-- UnmarshalJSON of `ServerDetails`: the document is stored into a zero local
struct; on error the error is returned, otherwise the receiver is overwritten
with the inner `server` value. -/
def ServerDetails.UnmarshalJSON {IP SD : Type} (ip : json.Elem IP) (sd : json.Elem SD)
    (s : upcloud.ServerDetails IP SD) (b : JSON) : Outcome (upcloud.ServerDetails IP SD) :=
  match json.decodeStruct (ServerDetails.local.fields ip sd) b ⟨ServerDetails.zero⟩ with
  | none => ⟨s, true⟩
  | some v => ⟨v.ServerDetails, false⟩

end upcloud


/-! ## Lemmas on the library model -/

namespace strings

theorem foldl_sep_eq (sep : String) (es : List String) (acc : String) :
    es.foldl (fun b s => b ++ sep ++ s) acc = String.intercalate.go acc sep es := by
  induction es generalizing acc with
  | nil => rfl
  | cons e es ih => simp only [List.foldl_cons, String.intercalate.go, ih]

/-- `strings.Join` is the separator-interleaved concatenation, in list order. -/
theorem Join_eq_intercalate (es : List String) (sep : String) :
    Join es sep = sep.intercalate es := by
  match es with
  | [] => rfl
  | [e] => rfl
  | e :: e2 :: es =>
    simp only [Join, String.intercalate]
    exact foldl_sep_eq sep (e2 :: es) e

end strings

namespace request

theorem TagServerRequest_RequestURL_eq (r : TagServerRequest) :
    r.RequestURL = "/server/" ++ r.UUID ++ "/tag/" ++ strings.Join r.Tags "," := by
  apply String.ext
  simp [TagServerRequest.RequestURL, fmt.Sprintf, fmt.SprintfAux]

theorem UntagServerRequest_RequestURL_eq (r : UntagServerRequest) :
    r.RequestURL = "/server/" ++ r.UUID ++ "/untag/" ++ strings.Join r.Tags "," := by
  apply String.ext
  simp [UntagServerRequest.RequestURL, fmt.Sprintf, fmt.SprintfAux]

/-! ## Claims on the endpoint addresses -/

/-- C1: for every UUID `u` and tag list `ts`, `TagServerRequest.RequestURL` is
`"/server/" + u + "/tag/"` followed by the tag names joined with `","` in the
order supplied; for the tags `a`, `b` the path ends in `/tag/a,b`. -/
theorem C1_tag_url (u : String) (ts : List String) :
    (TagServerRequest.mk u ts).RequestURL = "/server/" ++ u ++ "/tag/" ++ ",".intercalate ts ∧
    (TagServerRequest.mk u ["a", "b"]).RequestURL = "/server/" ++ u ++ "/tag/a,b" := by
  refine ⟨?_, ?_⟩
  · rw [TagServerRequest_RequestURL_eq, strings.Join_eq_intercalate]
  · rw [TagServerRequest_RequestURL_eq]
    apply String.ext
    simp [strings.Join]

/-- C2 as stated fails: the untag path of server `u1` with tags `a`, `b` is
`/server/u1/untag/a,b`, which does not end in `/tag/a,b` and differs from the
path of the tag request. -/
theorem C2_untag_suffix_counterexample :
    (UntagServerRequest.mk "u1" ["a", "b"]).RequestURL = "/server/u1/untag/a,b" ∧
    ¬ ("/tag/a,b".data <:+ (UntagServerRequest.mk "u1" ["a", "b"]).RequestURL.data) ∧
    (UntagServerRequest.mk "u1" ["a", "b"]).RequestURL ≠
      (TagServerRequest.mk "u1" ["a", "b"]).RequestURL := by
  decide

/-- C2 (amended): for every UUID `u` and tag list `ts`, `UntagServerRequest.RequestURL`
is `"/server/" + u + "/untag/"` followed by the tag names joined with `","` in
the order supplied, the same joined segment `TagServerRequest` appends after
`/tag/`; for the tags `a`, `b` the path ends in `/untag/a,b`. -/
theorem C2_untag_url (u : String) (ts : List String) :
    (UntagServerRequest.mk u ts).RequestURL
      = "/server/" ++ u ++ "/untag/" ++ ",".intercalate ts ∧
    (TagServerRequest.mk u ts).RequestURL
      = "/server/" ++ u ++ "/tag/" ++ ",".intercalate ts ∧
    (UntagServerRequest.mk u ["a", "b"]).RequestURL = "/server/" ++ u ++ "/untag/a,b" := by
  refine ⟨?_, ?_, ?_⟩
  · rw [UntagServerRequest_RequestURL_eq, strings.Join_eq_intercalate]
  · rw [TagServerRequest_RequestURL_eq, strings.Join_eq_intercalate]
  · rw [UntagServerRequest_RequestURL_eq]
    apply String.ext
    simp [strings.Join]

end request

/-! ## Lemmas on the encoder model -/

namespace json

theorem encodeElems_forall₂ {α : Type} (enc : α → Option JSON) :
    ∀ (xs : List α) (js : List JSON),
      encodeElems enc xs = some js ↔ List.Forall₂ (fun x j => enc x = some j) xs js
  | [], js => by
    cases js <;> simp [encodeElems]
  | x :: xs, js => by
    cases hx : enc x with
    | none =>
      simp only [encodeElems, hx, reduceCtorEq, false_iff]
      intro h
      cases h with
      | cons h1 _ => simp [hx] at h1
    | some j =>
      cases hxs : encodeElems enc xs with
      | none =>
        simp only [encodeElems, hx, hxs, reduceCtorEq, false_iff]
        intro h
        cases h with
        | cons _ h2 =>
          rw [← encodeElems_forall₂ enc xs] at h2
          simp [hxs] at h2
      | some js0 =>
        simp only [encodeElems, hx, hxs, Option.some.injEq]
        constructor
        · intro h
          subst h
          exact List.Forall₂.cons hx ((encodeElems_forall₂ enc xs js0).1 hxs)
        · intro h
          cases h with
          | cons h1 h2 =>
            rw [← encodeElems_forall₂ enc xs, hxs] at h2
            simp only [hx, Option.some.injEq] at h1 h2
            rw [h1, h2]

theorem encodeElems_total {α : Type} (f : α → JSON) (xs : List α) :
    encodeElems (fun x => some (f x)) xs = some (xs.map f) := by
  induction xs with
  | nil => rfl
  | cons x xs ih => simp [encodeElems, ih]

theorem encodeElems_isSome {α : Type} (enc : α → Option JSON) (xs : List α)
    (h : ∀ x ∈ xs, (enc x).isSome) : ∃ js, encodeElems enc xs = some js := by
  induction xs with
  | nil => exact ⟨[], rfl⟩
  | cons x xs ih =>
    obtain ⟨j, hj⟩ := Option.isSome_iff_exists.1 (h x (List.mem_cons_self x xs))
    obtain ⟨js, hjs⟩ := ih (fun y hy => h y (List.mem_cons_of_mem x hy))
    exact ⟨j :: js, by simp [encodeElems, hj, hjs]⟩

end json

namespace request

theorem IPAddressSlice_MarshalJSON_mk (es sp : List CreateServerIPAddress) :
    CreateServerIPAddressSlice.MarshalJSON (Slice.mk es sp)
      = some (JSON.obj [("ip_address", JSON.arr (es.map (fun a =>
          JSON.obj [("access", JSON.str a.Access), ("family", JSON.str a.Family)])))]) := by
  have h := json.encodeElems_total (fun a : CreateServerIPAddress =>
    JSON.obj [("access", JSON.str a.Access), ("family", JSON.str a.Family)]) es
  have h2 : (fun a : CreateServerIPAddress => some
      (JSON.obj [("access", JSON.str a.Access), ("family", JSON.str a.Family)]))
      = CreateServerIPAddress.encode := by
    funext a
    simp [CreateServerIPAddress.encode, json.stringField]
  rw [h2] at h
  simp [CreateServerIPAddressSlice.MarshalJSON, json.encodeSlice, h]

theorem SSHKeySlice_MarshalJSON_mk (es sp : List GoString) :
    SSHKeySlice.MarshalJSON (Slice.mk es sp)
      = some (JSON.obj [("ssh_key",
          JSON.arr (es.map (fun k => JSON.str (utf8.toValid k))))]) := by
  have h := json.encodeElems_total (fun k : GoString => JSON.str (utf8.toValid k)) es
  have h2 : (fun k : GoString => some (JSON.str (utf8.toValid k))) = json.encodeString := rfl
  rw [h2] at h
  simp [SSHKeySlice.MarshalJSON, json.encodeSlice, h]

theorem StorageDeviceSlice_MarshalJSON_mk {SD : Type} (encSD : SD → Option JSON)
    (es sp : List SD) (js : List JSON) (h : json.encodeElems encSD es = some js) :
    CreateServerStorageDeviceSlice.MarshalJSON encSD (Slice.mk es sp)
      = some (JSON.obj [("storage_device", JSON.arr js)]) := by
  simp [CreateServerStorageDeviceSlice.MarshalJSON, json.encodeSlice, h]

theorem IPAddressSlice_MarshalJSON_some (s : CreateServerIPAddressSlice) :
    ∃ j, CreateServerIPAddressSlice.MarshalJSON s = some j := by
  cases s with
  | nil => exact ⟨_, rfl⟩
  | mk es sp => exact ⟨_, IPAddressSlice_MarshalJSON_mk es sp⟩

theorem SSHKeySlice_MarshalJSON_some (s : SSHKeySlice) :
    ∃ j, SSHKeySlice.MarshalJSON s = some j := by
  cases s with
  | nil => exact ⟨_, rfl⟩
  | mk es sp => exact ⟨_, SSHKeySlice_MarshalJSON_mk es sp⟩

theorem loginUserField_some (u : Option LoginUser) :
    ∃ ms, CreateServerRequest.loginUserField u = some ms := by
  cases u with
  | none => exact ⟨[], rfl⟩
  | some u =>
    obtain ⟨j, hj⟩ := SSHKeySlice_MarshalJSON_some u.SSHKeys
    simp only [CreateServerRequest.loginUserField, LoginUser.encode, hj]
    exact ⟨_, rfl⟩

theorem StorageDeviceSlice_MarshalJSON_some {SD : Type} (encSD : SD → Option JSON)
    (s : CreateServerStorageDeviceSlice SD) (h : ∀ d ∈ s.toList, (encSD d).isSome) :
    ∃ j, CreateServerStorageDeviceSlice.MarshalJSON encSD s = some j := by
  cases s with
  | nil => exact ⟨_, rfl⟩
  | mk es sp =>
    obtain ⟨js, hjs⟩ := json.encodeElems_isSome encSD es h
    exact ⟨_, StorageDeviceSlice_MarshalJSON_mk encSD es sp js hjs⟩

theorem neg_tmod_eq (d c : Int) : (-d).tmod c = -(d.tmod c) := by
  rw [Int.tmod_def, Int.tmod_def, Int.neg_tdiv]
  ring

/-- Go integer division by a positive constant truncates toward zero: the
quotient `q` and remainder `rem` satisfy `d = q * c + rem` with `|rem| < c`
and `rem` of the sign of `d`. -/
theorem tdiv_truncates (d c : Int) (hc : 0 < c) :
    d = d.tdiv c * c + d.tmod c ∧ |d.tmod c| < c ∧ 0 ≤ d.tmod c * d := by
  have hneg : d < 0 → d.tmod c ≤ 0 ∧ -(d.tmod c) < c := by
    intro hd
    have h1 := Int.tmod_nonneg c (a := -d) (by omega)
    have h2 : (-d).tmod c < c := Int.tmod_lt_of_pos (-d) hc
    rw [neg_tmod_eq] at h1 h2
    exact ⟨by omega, h2⟩
  refine ⟨?_, ?_, ?_⟩
  · have := Int.tdiv_add_tmod' d c
    omega
  · rcases le_or_lt 0 d with hd | hd
    · rw [abs_of_nonneg (Int.tmod_nonneg c hd)]
      exact Int.tmod_lt_of_pos d hc
    · rw [abs_of_nonpos (hneg hd).1]
      exact (hneg hd).2
  · rcases le_or_lt 0 d with hd | hd
    · exact mul_nonneg (Int.tmod_nonneg c hd) hd
    · exact mul_nonneg_of_nonpos_of_nonpos (hneg hd).1 hd.le

/-! ## Claims on the request encoders -/

/-- C3: for every stop and restart request with timeout `d` nanoseconds,
`MarshalJSON` produces a body, and whenever the body carries a `timeout` member
its value is the decimal text (a JSON string, by the `string` tag option) of the
integer `q` with `d = q * 10^9 + rem`, `|rem| < 10^9` and `rem` of the sign of
`d`: the sub-second component is discarded, truncating toward zero. A timeout
of 90.7 seconds encodes as `90`. -/
theorem C3_timeout_whole_seconds (x : xml.Name) (u st ta : String) (d : Int) :
    (∃ ms, StopServerRequest.MarshalJSON ⟨x, u, st, d⟩
        = some (JSON.obj [("stop_server", JSON.obj ms)]) ∧
      ∀ v, ("timeout", v) ∈ ms → ∃ q rem : Int, d = q * 10 ^ 9 + rem ∧ |rem| < 10 ^ 9 ∧
        0 ≤ rem * d ∧ v = JSON.str (strconv.FormatInt q)) ∧
    (∃ ms, RestartServerRequest.MarshalJSON ⟨x, u, st, d, ta⟩
        = some (JSON.obj [("restart_server", JSON.obj ms)]) ∧
      ∀ v, ("timeout", v) ∈ ms → ∃ q rem : Int, d = q * 10 ^ 9 + rem ∧ |rem| < 10 ^ 9 ∧
        0 ≤ rem * d ∧ v = JSON.str (strconv.FormatInt q)) ∧
    StopServerRequest.MarshalJSON ⟨x, u, "", 90700000000⟩
      = some (JSON.obj [("stop_server", JSON.obj [("timeout", JSON.str "90")])]) ∧
    RestartServerRequest.MarshalJSON ⟨x, u, "", 90700000000, ""⟩
      = some (JSON.obj [("restart_server", JSON.obj [("timeout", JSON.str "90")])]) := by
  have key := tdiv_truncates d (10 ^ 9) (by norm_num)
  refine ⟨⟨_, rfl, ?_⟩, ⟨_, rfl, ?_⟩, ?_, ?_⟩
  · intro v hv
    refine ⟨d.tdiv (10 ^ 9), d.tmod (10 ^ 9), key.1, key.2.1, key.2.2, ?_⟩
    simp only [json.stringField, json.intField, List.mem_append] at hv
    rcases hv with hv | hv
    · split at hv <;> simp at hv
    · split at hv
      · simp at hv
      · simpa using hv
  · intro v hv
    refine ⟨d.tdiv (10 ^ 9), d.tmod (10 ^ 9), key.1, key.2.1, key.2.2, ?_⟩
    simp only [json.stringField, json.intField, List.mem_append] at hv
    rcases hv with (hv | hv) | hv
    · split at hv <;> simp at hv
    · split at hv
      · simp at hv
      · simpa using hv
    · split at hv <;> simp at hv
  · rfl
  · rfl

/-- Witness of C3: a stop request with a timeout of 90.7 seconds carries the
timeout member `90`. -/
theorem C3_timeout_whole_seconds_witness :
    StopServerRequest.MarshalJSON ⟨⟨"", ""⟩, "0077fa3d", "", 90700000000⟩
      = some (JSON.obj [("stop_server", JSON.obj [("timeout", JSON.str "90")])]) :=
  (C3_timeout_whole_seconds ⟨"", ""⟩ "0077fa3d" "" "" 90700000000).2.2.1

/-- C4: encoding does not change the source record. After `MarshalJSON` of a
stop or restart request the caller's record and the receiver are still the
record the call started with, `Timeout` and every other field included: the
division by `1e9` lands in the local copy `v` only. After `MarshalXML` the
record behind the receiver pointer is unchanged: the seconds are computed into
a field of the local struct. -/
theorem C4_encoding_keeps_record (r : StopServerRequest) (s : RestartServerRequest) :
    ((StopServerRequest.MarshalJSON.exec r).1.caller = r ∧
      (StopServerRequest.MarshalJSON.exec r).1.r = r ∧
      (StopServerRequest.MarshalJSON.exec r).1.v
        = { r with Timeout := r.Timeout.tdiv 1000000000 }) ∧
    ((StopServerRequest.MarshalXML.exec r).1.target = r ∧
      (StopServerRequest.MarshalXML.exec r).1.Timeout
        = Float64.toInt (time.Duration.Seconds r.Timeout)) ∧
    ((RestartServerRequest.MarshalJSON.exec s).1.caller = s ∧
      (RestartServerRequest.MarshalJSON.exec s).1.r = s ∧
      (RestartServerRequest.MarshalJSON.exec s).1.v
        = { s with Timeout := s.Timeout.tdiv 1000000000 }) ∧
    ((RestartServerRequest.MarshalXML.exec s).1.target = s ∧
      (RestartServerRequest.MarshalXML.exec s).1.Timeout
        = Float64.toInt (time.Duration.Seconds s.Timeout)) :=
  ⟨⟨rfl, rfl, rfl⟩, ⟨rfl, rfl⟩, ⟨rfl, rfl, rfl⟩, ⟨rfl, rfl⟩⟩

/-- C5: a modify request whose only set body field is a non-empty `Title`
encodes as exactly the wrapper member `server` holding the single member
`title`; the UUID and every other field are absent. -/
theorem C5_modify_title_only (x : xml.Name) (u T : String) (hT : T ≠ "") :
    ModifyServerRequest.MarshalJSON
        { XMLName := x, UUID := u, AvoidHost := "", BootOrder := "", CoreNumber := 0,
          Firewall := "", Hostname := "", MemoryAmount := 0, Plan := "", TimeZone := "",
          Title := T, VideoModel := "", VNC := "", VNCPassword := "" }
      = some (JSON.obj [("server", JSON.obj [("title", JSON.str T)])]) := by
  simp [ModifyServerRequest.MarshalJSON, ModifyServerRequest.encode, json.stringField,
    json.intField, hT]

/-- Witness of C5 for the title `web`. -/
theorem C5_modify_title_only_witness :
    "web" ≠ "" ∧
    ModifyServerRequest.MarshalJSON
        { XMLName := ⟨"", ""⟩, UUID := "0077fa3d", AvoidHost := "", BootOrder := "",
          CoreNumber := 0, Firewall := "", Hostname := "", MemoryAmount := 0, Plan := "",
          TimeZone := "", Title := "web", VideoModel := "", VNC := "", VNCPassword := "" }
      = some (JSON.obj [("server", JSON.obj [("title", JSON.str "web")])]) :=
  ⟨by decide, C5_modify_title_only ⟨"", ""⟩ "0077fa3d" "web" (by decide)⟩

/-- C6: the JSON body of a create, modify, stop or restart request is an object
with exactly one member, named `server` for create and modify, `stop_server`
for stop and `restart_server` for restart, and the value of that member is the
struct encoding holding all emitted fields. A create request produces its body
whenever each storage device encodes (the element type is a parameter), and
any body it produces has this shape. -/
theorem C6_single_wrapper_member {SD : Type} (encSD : SD → Option JSON)
    (c : CreateServerRequest SD) (m : ModifyServerRequest) (s : StopServerRequest)
    (r : RestartServerRequest) :
    ((∀ d ∈ c.StorageDevices.toList, (encSD d).isSome) →
      ∃ fs, CreateServerRequest.encode encSD c = some (JSON.obj fs) ∧
        CreateServerRequest.MarshalJSON encSD c = some (JSON.obj [("server", JSON.obj fs)])) ∧
    (∀ body, CreateServerRequest.MarshalJSON encSD c = some body →
      ∃ fs, CreateServerRequest.encode encSD c = some (JSON.obj fs) ∧
        body = JSON.obj [("server", JSON.obj fs)]) ∧
    (∃ fs, ModifyServerRequest.encode m = some (JSON.obj fs) ∧
      ModifyServerRequest.MarshalJSON m = some (JSON.obj [("server", JSON.obj fs)])) ∧
    (∃ fs, StopServerRequest.encode { s with Timeout := s.Timeout.tdiv 1000000000 }
        = some (JSON.obj fs) ∧
      StopServerRequest.MarshalJSON s = some (JSON.obj [("stop_server", JSON.obj fs)])) ∧
    (∃ fs, RestartServerRequest.encode { r with Timeout := r.Timeout.tdiv 1000000000 }
        = some (JSON.obj fs) ∧
      RestartServerRequest.MarshalJSON r
        = some (JSON.obj [("restart_server", JSON.obj fs)])) := by
  refine ⟨?_, ?_, ⟨_, rfl, rfl⟩, ⟨_, rfl, rfl⟩, ⟨_, rfl, rfl⟩⟩
  · intro h
    obtain ⟨ips, hips⟩ := IPAddressSlice_MarshalJSON_some c.IPAddresses
    obtain ⟨login, hlogin⟩ := loginUserField_some c.LoginUser
    obtain ⟨sds, hsds⟩ := StorageDeviceSlice_MarshalJSON_some encSD c.StorageDevices h
    have henc : ∃ fs, CreateServerRequest.encode encSD c = some (JSON.obj fs) := by
      simp only [CreateServerRequest.encode, hips, hlogin, hsds]
      exact ⟨_, rfl⟩
    obtain ⟨fs, hfs⟩ := henc
    exact ⟨fs, hfs, by simp only [CreateServerRequest.MarshalJSON, hfs]⟩
  · intro body hbody
    simp only [CreateServerRequest.MarshalJSON] at hbody
    cases henc : CreateServerRequest.encode encSD c with
    | none => simp [henc] at hbody
    | some j =>
      simp only [henc, Option.some.injEq] at hbody
      have hj : ∃ fs, j = JSON.obj fs := by
        simp only [CreateServerRequest.encode] at henc
        split at henc
        · simp at henc
        · split at henc
          · simp at henc
          · split at henc
            · simp at henc
            · exact ⟨_, (Option.some.inj henc).symm⟩
      obtain ⟨fs, hfs⟩ := hj
      exact ⟨fs, by rw [hfs], by rw [← hbody, hfs]⟩

/-- Witness of C6: a create request with one storage device, the encoder of
the element type instantiated to a one-member object. -/
theorem C6_single_wrapper_member_witness :
    ∃ fs, CreateServerRequest.MarshalJSON (fun d : String => some (JSON.obj [("storage", JSON.str d)]))
        { XMLName := ⟨"", ""⟩, AvoidHost := "", BootOrder := "", CoreNumber := 2, Firewall := "",
          Hostname := "web1", IPAddresses := Slice.nil, LoginUser := none, MemoryAmount := 0,
          PasswordDelivery := "", Plan := "", StorageDevices := Slice.mk ["disk0"] [],
          TimeZone := "", Title := "web", UserData := "", VideoModel := "", VNC := "",
          VNCPassword := "", Zone := "fi-hel1" }
      = some (JSON.obj [("server", JSON.obj fs)]) := by
  obtain ⟨fs, _, h⟩ := (C6_single_wrapper_member
    (fun d : String => some (JSON.obj [("storage", JSON.str d)]))
    { XMLName := ⟨"", ""⟩, AvoidHost := "", BootOrder := "", CoreNumber := 2, Firewall := "",
      Hostname := "web1", IPAddresses := Slice.nil, LoginUser := none, MemoryAmount := 0,
      PasswordDelivery := "", Plan := "", StorageDevices := Slice.mk ["disk0"] [],
      TimeZone := "", Title := "web", UserData := "", VideoModel := "", VNC := "",
      VNCPassword := "", Zone := "fi-hel1" }
    ⟨⟨"", ""⟩, "", "", "", 0, "", "", 0, "", "", "", "", "", ""⟩ ⟨⟨"", ""⟩, "", "", 0⟩
    ⟨⟨"", ""⟩, "", "", 0, ""⟩).1 (by simp [Slice.toList])
  exact ⟨fs, h⟩

/-- C7 as stated fails for a nil slice (the zero value of the three types): the
single member then holds `null`, not an array. -/
theorem C7_nil_slice_counterexample :
    CreateServerIPAddressSlice.MarshalJSON Slice.nil
      = some (JSON.obj [("ip_address", JSON.null)]) ∧
    SSHKeySlice.MarshalJSON Slice.nil = some (JSON.obj [("ssh_key", JSON.null)]) ∧
    (¬ ∃ js, CreateServerIPAddressSlice.MarshalJSON Slice.nil
      = some (JSON.obj [("ip_address", JSON.arr js)])) ∧
    (¬ ∃ js, SSHKeySlice.MarshalJSON Slice.nil
      = some (JSON.obj [("ssh_key", JSON.arr js)])) := by
  refine ⟨rfl, rfl, ?_, ?_⟩
  · rintro ⟨js, h⟩
    simp [CreateServerIPAddressSlice.MarshalJSON, json.encodeSlice] at h
  · rintro ⟨js, h⟩
    simp [SSHKeySlice.MarshalJSON, json.encodeSlice] at h

/-- C7 (amended): `MarshalJSON` of the three slice types emits an object with
exactly one member, named `ip_address`, `storage_device` and `ssh_key`. For a
non-nil slice the value of the member is the array of the encoded elements, in
the original order and of the same length (for storage devices, whenever each
element encodes to the corresponding `js` entry; an SSH key is encoded as the
JSON string of its text); for a nil slice the value is `null`. In no case is
the result a bare array. -/
theorem C7_slice_wrapper_member {SD : Type} (encSD : SD → Option JSON)
    (ips sp1 : List CreateServerIPAddress) (sds sp2 : List SD) (keys sp3 : List GoString)
    (js : List JSON) (h : List.Forall₂ (fun d j => encSD d = some j) sds js) :
    CreateServerIPAddressSlice.MarshalJSON (Slice.mk ips sp1)
      = some (JSON.obj [("ip_address", JSON.arr (ips.map (fun a =>
          JSON.obj [("access", JSON.str a.Access), ("family", JSON.str a.Family)])))]) ∧
    CreateServerStorageDeviceSlice.MarshalJSON encSD (Slice.mk sds sp2)
      = some (JSON.obj [("storage_device", JSON.arr js)]) ∧
    js.length = sds.length ∧
    SSHKeySlice.MarshalJSON (Slice.mk keys sp3)
      = some (JSON.obj [("ssh_key",
          JSON.arr (keys.map (fun k => JSON.str (utf8.toValid k))))]) ∧
    (keys.map (fun k => JSON.str (utf8.toValid k))).length = keys.length ∧
    CreateServerIPAddressSlice.MarshalJSON Slice.nil
      = some (JSON.obj [("ip_address", JSON.null)]) ∧
    CreateServerStorageDeviceSlice.MarshalJSON encSD Slice.nil
      = some (JSON.obj [("storage_device", JSON.null)]) ∧
    SSHKeySlice.MarshalJSON Slice.nil = some (JSON.obj [("ssh_key", JSON.null)]) :=
  ⟨IPAddressSlice_MarshalJSON_mk ips sp1,
    StorageDeviceSlice_MarshalJSON_mk encSD sds sp2 js ((json.encodeElems_forall₂ encSD sds js).2 h),
    h.length_eq.symm, SSHKeySlice_MarshalJSON_mk keys sp3, List.length_map _ _, rfl, rfl, rfl⟩

/-- Witness of C7 (amended): two addresses, two storage devices, two keys. -/
theorem C7_slice_wrapper_member_witness :
    CreateServerStorageDeviceSlice.MarshalJSON
        (fun d : String => some (JSON.obj [("storage", JSON.str d)])) (Slice.mk ["d0", "d1"] [])
      = some (JSON.obj [("storage_device", JSON.arr
          [JSON.obj [("storage", JSON.str "d0")], JSON.obj [("storage", JSON.str "d1")]])]) :=
  (C7_slice_wrapper_member (fun d : String => some (JSON.obj [("storage", JSON.str d)]))
    [⟨"public", "IPv4"⟩, ⟨"private", "IPv6"⟩] [] ["d0", "d1"] []
    [utf8.ofText "k0", utf8.ofText "k1"] []
    [JSON.obj [("storage", JSON.str "d0")], JSON.obj [("storage", JSON.str "d1")]]
    (List.Forall₂.cons rfl (List.Forall₂.cons rfl List.Forall₂.nil))).2.1

end request

/-! ## Lemmas on the decoder model -/

namespace json

theorem decodeElems_fresh {α : Type} (elem : JSON → α → Option α) (zero : α) :
    ∀ (xs : List JSON) (ss : List α),
      decodeElems elem zero xs [] = some ss ↔
        List.Forall₂ (fun x a => elem x zero = some a) xs ss
  | [], ss => by
    cases ss <;> simp [decodeElems]
  | x :: xs, ss => by
    simp only [decodeElems, List.headD_nil, List.tail_nil]
    cases hx : elem x zero with
    | none =>
      simp only [reduceCtorEq, false_iff]
      intro h
      cases h with
      | cons h1 _ => simp [hx] at h1
    | some a =>
      cases hxs : decodeElems elem zero xs [] with
      | none =>
        simp only [reduceCtorEq, false_iff]
        intro h
        cases h with
        | cons _ h2 =>
          rw [← decodeElems_fresh elem zero xs] at h2
          simp [hxs] at h2
      | some as =>
        simp only [Option.some.injEq]
        constructor
        · intro h
          subst h
          exact List.Forall₂.cons hx ((decodeElems_fresh elem zero xs as).1 hxs)
        · intro h
          cases h with
          | cons h1 h2 =>
            rw [← decodeElems_fresh elem zero xs, hxs] at h2
            simp only [hx, Option.some.injEq] at h1 h2
            rw [h1, h2]

theorem decodeSlice_arr_fresh {α : Type} (elem : JSON → α → Option α) (zero : α)
    (xs : List JSON) (ss : List α)
    (h : List.Forall₂ (fun x a => elem x zero = some a) xs ss) :
    decodeSlice elem zero (JSON.arr xs) Slice.nil = some (Slice.mk ss []) := by
  cases xs with
  | nil =>
    cases h
    rfl
  | cons x xs =>
    have h2 := (decodeElems_fresh elem zero (x :: xs) ss).2 h
    simp [decodeSlice, Slice.backing, h2]

theorem decodeMembers_nil {T : Type} (fields : List (Field T)) (cur : T) :
    decodeMembers fields [] cur = some cur := rfl

theorem decodeMembers_cons {T : Type} (fields : List (Field T)) (k : String) (v : JSON)
    (rest : List (String × JSON)) (cur : T) :
    decodeMembers fields ((k, v) :: rest) cur
      = match findField fields k with
        | none => decodeMembers fields rest cur
        | some f =>
          match f.store v cur with
          | none => none
          | some next => decodeMembers fields rest next := rfl

theorem decodeMembers_append {T : Type} (fields : List (Field T)) :
    ∀ (ms ns : List (String × JSON)) (cur : T),
      decodeMembers fields (ms ++ ns) cur
        = (decodeMembers fields ms cur).bind (decodeMembers fields ns)
  | [], ns, cur => rfl
  | (k, v) :: ms, ns, cur => by
    rw [List.cons_append, decodeMembers_cons, decodeMembers_cons]
    cases hf : findField fields k with
    | none => exact decodeMembers_append fields ms ns cur
    | some f =>
      dsimp only
      cases hs : f.store v cur with
      | none => rfl
      | some next => exact decodeMembers_append fields ms ns next

end json

namespace upcloud

theorem Servers_UnmarshalJSON_wrapped (s : Servers) (j : JSON) :
    Servers.UnmarshalJSON s (JSON.obj [("servers", JSON.obj [("server", j)])])
      = match json.decodeSlice Server.decode Server.zero j Slice.nil with
        | none => ⟨s, true⟩
        | some l => ⟨⟨l⟩, false⟩ := by
  simp only [Servers.UnmarshalJSON, json.decodeStruct, json.decodeMembers, json.findField,
    Servers.local.fields, serverWrapper.fields, List.find?, beq_self_eq_true]
  cases json.decodeSlice Server.decode Server.zero j Slice.nil <;> rfl

end upcloud

/-! ## Lemmas on integer conversion -/

namespace strconv

theorem digitVal_digitChar (d : Nat) (h : d < 10) : digitVal (Nat.digitChar d) = some d := by
  interval_cases d <;> rfl

theorem parseDigits_append_single (c : Char) :
    ∀ (xs : List Char) (a : Nat),
      parseDigits (xs ++ [c]) a
        = (parseDigits xs a).bind (fun m => (digitVal c).map (fun d => m * 10 + d))
  | [], a => by
    simp only [List.nil_append, parseDigits, Option.some_bind]
    cases digitVal c <;> rfl
  | x :: xs, a => by
    simp only [List.cons_append, parseDigits]
    cases digitVal x with
    | none => rfl
    | some d => exact parseDigits_append_single c xs (a * 10 + d)

theorem formatBits_acc :
    ∀ (fuel n : Nat) (acc : List Char), formatBits fuel n acc = formatBits fuel n [] ++ acc
  | 0, _, acc => rfl
  | fuel + 1, n, acc => by
    simp only [formatBits]
    split
    · rfl
    · rw [formatBits_acc fuel (n / 10) (Nat.digitChar (n % 10) :: acc),
        formatBits_acc fuel (n / 10) [Nat.digitChar (n % 10)]]
      simp

theorem parseDigits_formatBits :
    ∀ (fuel n : Nat), n < fuel → parseDigits (formatBits fuel n []) 0 = some n
  | 0, n, h => by omega
  | fuel + 1, n, h => by
    simp only [formatBits]
    split
    · rename_i h10
      simp [parseDigits, digitVal_digitChar n h10]
    · rename_i h10
      rw [formatBits_acc, parseDigits_append_single,
        parseDigits_formatBits fuel (n / 10) (by omega),
        digitVal_digitChar (n % 10) (Nat.mod_lt n (by norm_num))]
      simp only [Option.some_bind, Option.map_some', Option.some.injEq]
      omega

theorem formatBits_head (fuel n : Nat) (h : n < fuel) :
    ∃ c cs, formatBits fuel n [] = c :: cs ∧ (digitVal c).isSome := by
  have hp := parseDigits_formatBits fuel n h
  cases hf : formatBits fuel n [] with
  | nil =>
    cases fuel with
    | zero => omega
    | succ fuel =>
      simp only [formatBits] at hf
      split at hf
      · simp at hf
      · rw [formatBits_acc] at hf
        simp at hf
  | cons c cs =>
    refine ⟨c, cs, rfl, ?_⟩
    rw [hf] at hp
    simp only [parseDigits] at hp
    cases hd : digitVal c with
    | none => simp [hd] at hp
    | some d => rfl

/-- The decimal text of an integer starts with `-` or a digit. -/
theorem FormatInt_head (n : Int) :
    ∃ c cs, (FormatInt n).data = c :: cs ∧ (c = '-' ∨ (digitVal c).isSome) := by
  cases n with
  | ofNat m =>
    obtain ⟨c, cs, h1, h2⟩ := formatBits_head (m + 1) m (by omega)
    exact ⟨c, cs, by simp [FormatInt, h1], Or.inr h2⟩
  | negSucc m => exact ⟨'-', _, rfl, Or.inl rfl⟩

/-- Parsing the decimal text of a 64-bit integer gives the integer back. -/
theorem ParseInt_FormatInt (n : Int) (h : -(2 ^ 63) ≤ n ∧ n < 2 ^ 63) :
    ParseInt (FormatInt n) = some n := by
  cases n with
  | ofNat m =>
    obtain ⟨c, cs, h1, h2⟩ := formatBits_head (m + 1) m (by omega)
    have hp := parseDigits_formatBits (m + 1) m (by omega)
    have hm : c ≠ '-' := by
      rintro rfl
      simp [digitVal] at h2
    have hpl : c ≠ '+' := by
      rintro rfl
      simp [digitVal] at h2
    have hlt : m < 2 ^ 63 := by
      have := h.2
      simp only [Int.ofNat_eq_coe] at this
      exact_mod_cast this
    rw [h1] at hp
    simp only [ParseInt, FormatInt, h1, hm, hpl, if_false, parseUint, reduceCtorEq, hp,
      Option.some_bind, signed64, Bool.false_eq_true, hlt, if_true, Int.ofNat_eq_coe]
  | negSucc m =>
    have hp := parseDigits_formatBits (m + 2) (m + 1) (by omega)
    obtain ⟨c, cs, h1, _⟩ := formatBits_head (m + 2) (m + 1) (by omega)
    have hle : m + 1 ≤ 2 ^ 63 := by
      have := h.1
      rw [Int.negSucc_eq] at this
      omega
    have hne : formatBits (m + 2) (m + 1) [] ≠ [] := by simp [h1]
    simp only [ParseInt, FormatInt, if_true, parseUint, hne, if_false, hp, Option.some_bind,
      signed64, hle, Int.negSucc_eq, Option.some.injEq]
    push_cast
    ring

end strconv

namespace json

theorem storeQuotedInt_FormatInt (n cur : Int) (h : -(2 ^ 63) ≤ n ∧ n < 2 ^ 63) :
    storeQuotedInt (strconv.FormatInt n) cur = some n := by
  obtain ⟨c, cs, h1, h2⟩ := strconv.FormatInt_head n
  have hnull : strconv.FormatInt n ≠ "null" := by
    intro he
    rw [he] at h1
    have hc : c = 'n' := by
      have := (List.cons.inj h1).1
      exact this.symm
    subst hc
    rcases h2 with h2 | h2
    · exact absurd h2 (by decide)
    · simp [strconv.digitVal] at h2
  have h3 : (c = '-' ∨ (strconv.digitVal c).isSome = true) := h2
  simp only [storeQuotedInt, hnull, if_false, h1, h3, if_true,
    strconv.ParseInt_FormatInt n h]

theorem storeQuotedInt_reject (s : String) (cur : Int) (hs : s ≠ "null")
    (hp : strconv.ParseInt s = none) : storeQuotedInt s cur = none := by
  simp only [storeQuotedInt, hs, if_false, hp]
  cases s.data with
  | nil => rfl
  | cons c cs => simp

end json

namespace json

theorem findField_mem {T : Type} (fields : List (Field T)) (k : String) (f : Field T)
    (h : findField fields k = some f) : f ∈ fields := by
  simp only [findField] at h
  split at h
  · rename_i g hg
    cases h
    exact List.mem_of_find?_eq_some hg
  · exact List.mem_of_find?_eq_some h

/-- A property kept by the store function of every field is kept by storing
the members of an object. -/
theorem decodeMembers_invariant {T : Type} (fields : List (Field T)) (P : T → Prop)
    (hP : ∀ f ∈ fields, ∀ j cur next, f.store j cur = some next → P cur → P next) :
    ∀ (ms : List (String × JSON)) (cur res : T),
      decodeMembers fields ms cur = some res → P cur → P res
  | [], cur, res, h, hc => by
    simp only [decodeMembers, Option.some.injEq] at h
    exact h ▸ hc
  | (k, v) :: ms, cur, res, h, hc => by
    rw [decodeMembers_cons] at h
    cases hf : findField fields k with
    | none =>
      rw [hf] at h
      exact decodeMembers_invariant fields P hP ms cur res h hc
    | some f =>
      rw [hf] at h
      dsimp only at h
      cases hs : f.store v cur with
      | none => simp [hs] at h
      | some next =>
        rw [hs] at h
        exact decodeMembers_invariant fields P hP ms next res h
          (hP f (findField_mem fields k f hf) v cur next hs hc)

end json

namespace strconv

theorem ParseFloat_finite (s : String) (f : Float64) (h : ParseFloat s = some f) :
    ∃ sg m e, f = Float64.finite sg m e := by
  unfold ParseFloat at h
  split at h
  · simp at h
  · rename_i neg p q _
    cases hr : Float64.round neg p q with
    | finite sg m e =>
      rw [hr] at h
      simp only [inRange, Option.some.injEq] at h
      exact ⟨sg, m, e, h.symm⟩
    | inf sg => simp [hr, inRange] at h
    | nan => simp [hr, inRange] at h

end strconv

namespace upcloud

theorem Server_store_core_number (j : JSON) (rest : List (String × JSON)) (cur : Server) :
    json.decodeMembers Server.fields (("core_number", j) :: rest) cur
      = (json.storeIntString j cur.CoreNumber).bind
          (fun n => json.decodeMembers Server.fields rest { cur with CoreNumber := n }) := by
  rw [json.decodeMembers_cons]
  simp only [json.findField, Server.fields, List.find?, beq_self_eq_true, String.reduceBEq]
  cases json.storeIntString j cur.CoreNumber <;> rfl

theorem Server_store_memory_amount (j : JSON) (rest : List (String × JSON)) (cur : Server) :
    json.decodeMembers Server.fields (("memory_amount", j) :: rest) cur
      = (json.storeIntString j cur.MemoryAmount).bind
          (fun n => json.decodeMembers Server.fields rest { cur with MemoryAmount := n }) := by
  rw [json.decodeMembers_cons]
  simp only [json.findField, Server.fields, List.find?, beq_self_eq_true, String.reduceBEq]
  cases json.storeIntString j cur.MemoryAmount <;> rfl

theorem Server_store_progress (j : JSON) (rest : List (String × JSON)) (cur : Server) :
    json.decodeMembers Server.fields (("progress", j) :: rest) cur
      = (json.storeIntString j cur.Progress).bind
          (fun n => json.decodeMembers Server.fields rest { cur with Progress := n }) := by
  rw [json.decodeMembers_cons]
  simp only [json.findField, Server.fields, List.find?, beq_self_eq_true, String.reduceBEq]
  cases json.storeIntString j cur.Progress <;> rfl

end upcloud

/-! ## Lemmas on members that do not address a field -/

namespace json

theorem findField_name {T : Type} (fields : List (Field T)) (k : String) (f : Field T)
    (h : findField fields k = some f) : foldName f.name = foldName k := by
  simp only [findField] at h
  split at h
  · rename_i g hg
    cases h
    have := List.find?_some hg
    simp only [beq_iff_eq] at this
    rw [this]
  · have := List.find?_some h
    simpa using this

/-- Storing members commutes with an update of the destination that every
field addressed by the members commutes with. -/
theorem decodeMembers_commute {T : Type} (fields : List (Field T)) (upd : T → T) :
    ∀ (ms : List (String × JSON)) (c : T),
      (∀ kv ∈ ms, ∀ f, findField fields kv.1 = some f →
        ∀ j x, f.store j (upd x) = (f.store j x).map upd) →
      decodeMembers fields ms (upd c) = (decodeMembers fields ms c).map upd
  | [], c, _ => rfl
  | (k, v) :: ms, c, hms => by
    have hrest : ∀ kv ∈ ms, ∀ f, findField fields kv.1 = some f →
        ∀ j x, f.store j (upd x) = (f.store j x).map upd :=
      fun kv hkv => hms kv (List.mem_cons_of_mem _ hkv)
    rw [decodeMembers_cons, decodeMembers_cons]
    cases hf : findField fields k with
    | none => exact decodeMembers_commute fields upd ms c hrest
    | some f =>
      dsimp only
      rw [hms (k, v) (List.mem_cons_self _ _) f hf v c]
      cases hs : f.store v c with
      | none => rfl
      | some next => exact decodeMembers_commute fields upd ms next hrest

/-- A key that matches no field name, even ignoring case, addresses no field. -/
theorem findField_none {T : Type} (fields : List (Field T)) (k : String)
    (h : ∀ f ∈ fields, foldName f.name ≠ foldName k) : findField fields k = none := by
  cases hf : findField fields k with
  | none => rfl
  | some f => exact absurd (findField_name fields k f hf) (h f (findField_mem fields k f hf))

/-- Members whose keys address no field leave the destination as it is. -/
theorem decodeMembers_skip {T : Type} (fields : List (Field T)) :
    ∀ (ms : List (String × JSON)) (cur : T),
      (∀ kv ∈ ms, findField fields kv.1 = none) → decodeMembers fields ms cur = some cur
  | [], _, _ => rfl
  | (k, v) :: ms, cur, h => by
    rw [decodeMembers_cons, h (k, v) (List.mem_cons_self _ _)]
    exact decodeMembers_skip fields ms cur (fun kv hkv => h kv (List.mem_cons_of_mem _ hkv))

end json

namespace upcloud

theorem Server_fields_commute_core_number (n : Int) :
    ∀ f ∈ Server.fields, f.name ≠ "core_number" → ∀ (j : JSON) (c : Server),
      f.store j { c with CoreNumber := n }
        = (f.store j c).map (fun x => { x with CoreNumber := n }) := by
  intro f hf hne j c
  simp only [Server.fields, List.mem_cons, List.mem_singleton, List.not_mem_nil, or_false] at hf
  rcases hf with rfl | rfl | rfl | rfl | rfl | rfl | rfl | rfl | rfl | rfl | rfl
  all_goals first
    | exact absurd rfl hne
    | (simp only [Option.map_map]; rfl)

theorem Server_fields_commute_memory_amount (n : Int) :
    ∀ f ∈ Server.fields, f.name ≠ "memory_amount" → ∀ (j : JSON) (c : Server),
      f.store j { c with MemoryAmount := n }
        = (f.store j c).map (fun x => { x with MemoryAmount := n }) := by
  intro f hf hne j c
  simp only [Server.fields, List.mem_cons, List.mem_singleton, List.not_mem_nil, or_false] at hf
  rcases hf with rfl | rfl | rfl | rfl | rfl | rfl | rfl | rfl | rfl | rfl | rfl
  all_goals first
    | exact absurd rfl hne
    | (simp only [Option.map_map]; rfl)

theorem Server_fields_commute_progress (n : Int) :
    ∀ f ∈ Server.fields, f.name ≠ "progress" → ∀ (j : JSON) (c : Server),
      f.store j { c with Progress := n }
        = (f.store j c).map (fun x => { x with Progress := n }) := by
  intro f hf hne j c
  simp only [Server.fields, List.mem_cons, List.mem_singleton, List.not_mem_nil, or_false] at hf
  rcases hf with rfl | rfl | rfl | rfl | rfl | rfl | rfl | rfl | rfl | rfl | rfl
  all_goals first
    | exact absurd rfl hne
    | (simp only [Option.map_map]; rfl)

/-- Members after which no key addresses the field `name` commute with an
update that the other fields commute with. -/
theorem Server_post_commute (name : String) (upd : Server → Server)
    (hc : ∀ f ∈ Server.fields, f.name ≠ name →
      ∀ (j : JSON) (c : Server), f.store j (upd c) = (f.store j c).map upd)
    (post : List (String × JSON))
    (hpost : ∀ kv ∈ post, json.foldName kv.1 ≠ json.foldName name) (c : Server) :
    json.decodeMembers Server.fields post (upd c)
      = (json.decodeMembers Server.fields post c).map upd := by
  refine json.decodeMembers_commute Server.fields upd post c ?_
  intro kv hkv f hf j x
  have hname := json.findField_name _ _ f hf
  have hne : f.name ≠ name := by
    intro he
    rw [he] at hname
    exact hpost kv hkv hname.symm
  exact hc f (json.findField_mem _ _ f hf) hne j x

end upcloud

namespace upcloud

theorem Server_decode_obj (ms : List (String × JSON)) (cur : Server) :
    Server.decode (JSON.obj ms) cur = json.decodeMembers Server.fields ms cur := rfl

theorem Server_fields_keep_finite :
    ∀ f ∈ Server.fields, ∀ (j : JSON) (cur next : Server), f.store j cur = some next →
      (∃ sg m e, cur.License = Float64.finite sg m e) →
      ∃ sg m e, next.License = Float64.finite sg m e := by
  intro f hf j cur next hs hc
  simp only [Server.fields, List.mem_cons, List.mem_singleton, List.not_mem_nil, or_false] at hf
  rcases hf with rfl | rfl | rfl | rfl | rfl | rfl | rfl | rfl | rfl | rfl | rfl <;>
    simp only [Option.map_eq_some'] at hs <;> obtain ⟨x, hx, rfl⟩ := hs
  all_goals first
    | exact hc
    | (cases j with
       | null =>
         simp only [json.storeFloat64, Option.some.injEq] at hx
         subst hx
         exact hc
       | num lit => exact strconv.ParseFloat_finite lit x hx
       | bool b => simp [json.storeFloat64] at hx
       | str s => simp [json.storeFloat64] at hx
       | arr es => simp [json.storeFloat64] at hx
       | obj ms => simp [json.storeFloat64] at hx)

/-- A server decoded from the zero value carries a finite `License`. -/
theorem Server_decode_finite (j : JSON) (sv : Server)
    (h : Server.decode j Server.zero = some sv) :
    ∃ sg m e, sv.License = Float64.finite sg m e := by
  have hz : ∃ sg m e, Server.zero.License = Float64.finite sg m e := ⟨_, _, _, rfl⟩
  cases j with
  | null =>
    simp only [Server.decode, json.decodeStruct, Option.some.injEq] at h
    exact h ▸ hz
  | obj ms =>
    exact json.decodeMembers_invariant Server.fields _ Server_fields_keep_finite ms
      Server.zero sv h hz
  | bool b => simp [Server.decode, json.decodeStruct] at h
  | num lit => simp [Server.decode, json.decodeStruct] at h
  | str s => simp [Server.decode, json.decodeStruct] at h
  | arr es => simp [Server.decode, json.decodeStruct] at h

theorem Server_encode_finite (fmtFloat : Float64 → String) (sv : Server)
    (h : ∃ sg m e, sv.License = Float64.finite sg m e) :
    (Server.encode fmtFloat sv).isSome := by
  obtain ⟨sg, m, e, hl⟩ := h
  have ht : ∃ j, json.encodeSlice (fun k => some (JSON.str k)) sv.Tags = some j := by
    cases sv.Tags with
    | nil => exact ⟨_, rfl⟩
    | mk es sp =>
      exact ⟨JSON.arr (es.map JSON.str),
        by simp [json.encodeSlice, json.encodeElems_total JSON.str es]⟩
  obtain ⟨j, hj⟩ := ht
  simp [Server.encode, hl, hj]

theorem decoded_of_mem (xs : List JSON) (ss : List Server)
    (h : List.Forall₂ (fun x sv => Server.decode x Server.zero = some sv) xs ss) :
    ∀ sv ∈ ss, ∃ x, Server.decode x Server.zero = some sv := by
  induction h with
  | nil => intro sv hsv; simp at hsv
  | @cons x sv0 xs ss0 h1 _ ih =>
    intro sv hsv
    rcases List.mem_cons.1 hsv with rfl | hmem
    · exact ⟨x, h1⟩
    · exact ih sv hmem

theorem Servers_UnmarshalJSON_list (s : Servers) (xs : List JSON) (ss : List Server)
    (h : List.Forall₂ (fun x sv => Server.decode x Server.zero = some sv) xs ss) :
    Servers.UnmarshalJSON s (JSON.obj [("servers", JSON.obj [("server", JSON.arr xs)])])
      = ⟨⟨Slice.mk ss []⟩, false⟩ := by
  rw [Servers_UnmarshalJSON_wrapped, json.decodeSlice_arr_fresh Server.decode Server.zero xs ss h]

/-! ## Claims on the response decoders -/

/-- C8: for a list `xs` of server objects that each decode (to `ss`, entry by
entry), `Servers.UnmarshalJSON` on the body `{"servers":{"server":xs}}` returns
no error and sets `Servers` to the flat list `ss`: same length as `xs`, the
i-th element being the decoding of the i-th element of `xs`. -/
theorem C8_servers_list_unwrapped (s : Servers) (xs : List JSON) (ss : List Server)
    (h : List.Forall₂ (fun x sv => Server.decode x Server.zero = some sv) xs ss) :
    Servers.UnmarshalJSON s (JSON.obj [("servers", JSON.obj [("server", JSON.arr xs)])])
      = ⟨⟨Slice.mk ss []⟩, false⟩ ∧
    (Slice.mk ss [] : Slice Server).toList = ss ∧ ss.length = xs.length :=
  ⟨Servers_UnmarshalJSON_list s xs ss h, rfl, h.length_eq.symm⟩

/-- Witness of C8: a body with two server objects, decoded over a receiver
that held another list before. -/
theorem C8_servers_list_unwrapped_witness :
    Servers.UnmarshalJSON ⟨Slice.mk [Server.zero] []⟩
        (JSON.obj [("servers", JSON.obj [("server", JSON.arr
          [JSON.obj [("uuid", JSON.str "u1"), ("core_number", JSON.str "2")],
           JSON.obj [("uuid", JSON.str "u2"),
             ("tags", JSON.obj [("tag", JSON.arr [JSON.str "a"])])]])])])
      = ⟨⟨Slice.mk [{ Server.zero with UUID := "u1", CoreNumber := 2 },
            { Server.zero with UUID := "u2", Tags := Slice.mk ["a"] [] }] []⟩, false⟩ :=
  (C8_servers_list_unwrapped ⟨Slice.mk [Server.zero] []⟩
    [JSON.obj [("uuid", JSON.str "u1"), ("core_number", JSON.str "2")],
     JSON.obj [("uuid", JSON.str "u2"), ("tags", JSON.obj [("tag", JSON.arr [JSON.str "a"])])]]
    [{ Server.zero with UUID := "u1", CoreNumber := 2 },
     { Server.zero with UUID := "u2", Tags := Slice.mk ["a"] [] }]
    (List.Forall₂.cons (by decide) (List.Forall₂.cons (by decide) List.Forall₂.nil))).1

/-- C9 as stated fails twice: the quoted word `null` is not a numeric literal,
yet it is accepted and leaves the field at its default; and the quoted decimal
text of the integer `2^63` is rejected instead of decoding to that integer. -/
theorem C9_quoted_null_counterexample :
    strconv.ParseInt "null" = none ∧
    Server.decode (JSON.obj [("core_number", JSON.str "null")]) Server.zero
      = some Server.zero ∧
    Servers.UnmarshalJSON ⟨Slice.nil⟩ (JSON.obj [("servers", JSON.obj [("server",
        JSON.arr [JSON.obj [("core_number", JSON.str "null")]])])])
      = ⟨⟨Slice.mk [Server.zero] []⟩, false⟩ ∧
    strconv.FormatInt 9223372036854775808 = "9223372036854775808" ∧
    Server.decode (JSON.obj [("core_number", JSON.str "9223372036854775808")]) Server.zero
      = none := by
  decide

/-- C9 (amended): when decoding a server object, each of `core_number`,
`memory_amount` and `progress` given as the quoted decimal text of an integer
`n` of the signed 64-bit range decodes to `n`, at any position in the object:
with no later member addressing the same field, the object decodes exactly
when the object without that member does, to the same record with the field
set to `n` (in last position without any condition). A quoted content other
than the word `null` that does not parse as a 64-bit decimal integer makes the
decode fail, wherever the member stands in the object; the quoted word `null`
is accepted and leaves the field as it was. -/
theorem C9_quoted_integer_fields (ms pre post : List (String × JSON)) (cur : Server)
    (n : Int) (hn : -(2 ^ 63) ≤ n ∧ n < 2 ^ 63)
    (s : String) (hs : s ≠ "null") (hp : strconv.ParseInt s = none) :
    (Server.decode (JSON.obj (ms ++ [("core_number", JSON.str (strconv.FormatInt n))])) cur
        = (Server.decode (JSON.obj ms) cur).map (fun sv => { sv with CoreNumber := n }) ∧
      Server.decode (JSON.obj (ms ++ [("memory_amount", JSON.str (strconv.FormatInt n))])) cur
        = (Server.decode (JSON.obj ms) cur).map (fun sv => { sv with MemoryAmount := n }) ∧
      Server.decode (JSON.obj (ms ++ [("progress", JSON.str (strconv.FormatInt n))])) cur
        = (Server.decode (JSON.obj ms) cur).map (fun sv => { sv with Progress := n })) ∧
    (Server.decode (JSON.obj (pre ++ ("core_number", JSON.str s) :: post)) cur = none ∧
      Server.decode (JSON.obj (pre ++ ("memory_amount", JSON.str s) :: post)) cur = none ∧
      Server.decode (JSON.obj (pre ++ ("progress", JSON.str s) :: post)) cur = none) ∧
    (Server.decode (JSON.obj (ms ++ [("core_number", JSON.str "null")])) cur
        = Server.decode (JSON.obj ms) cur ∧
      Server.decode (JSON.obj (ms ++ [("memory_amount", JSON.str "null")])) cur
        = Server.decode (JSON.obj ms) cur ∧
      Server.decode (JSON.obj (ms ++ [("progress", JSON.str "null")])) cur
        = Server.decode (JSON.obj ms) cur) ∧
    (((∀ kv ∈ post, json.foldName kv.1 ≠ json.foldName "core_number") →
        Server.decode
            (JSON.obj (pre ++ ("core_number", JSON.str (strconv.FormatInt n)) :: post)) cur
          = (Server.decode (JSON.obj (pre ++ post)) cur).map
              (fun sv => { sv with CoreNumber := n })) ∧
      ((∀ kv ∈ post, json.foldName kv.1 ≠ json.foldName "memory_amount") →
        Server.decode
            (JSON.obj (pre ++ ("memory_amount", JSON.str (strconv.FormatInt n)) :: post)) cur
          = (Server.decode (JSON.obj (pre ++ post)) cur).map
              (fun sv => { sv with MemoryAmount := n })) ∧
      ((∀ kv ∈ post, json.foldName kv.1 ≠ json.foldName "progress") →
        Server.decode
            (JSON.obj (pre ++ ("progress", JSON.str (strconv.FormatInt n)) :: post)) cur
          = (Server.decode (JSON.obj (pre ++ post)) cur).map
              (fun sv => { sv with Progress := n }))) := by
  have hq : ∀ c : Int, json.storeIntString (JSON.str (strconv.FormatInt n)) c = some n :=
    fun c => json.storeQuotedInt_FormatInt n c hn
  have hr : ∀ c : Int, json.storeIntString (JSON.str s) c = none :=
    fun c => json.storeQuotedInt_reject s c hs hp
  have hnull : ∀ c : Int, json.storeIntString (JSON.str "null") c = some c := fun c => rfl
  refine ⟨?_, ?_, ?_, ?_, ?_, ?_⟩
  · simp only [Server_decode_obj, json.decodeMembers_append, Server_store_core_number,
      Server_store_memory_amount, Server_store_progress, hq, Option.some_bind,
      json.decodeMembers_nil]
    refine ⟨?_, ?_, ?_⟩ <;> cases json.decodeMembers Server.fields ms cur <;> rfl
  · simp only [Server_decode_obj, json.decodeMembers_append, Server_store_core_number,
      Server_store_memory_amount, Server_store_progress, hr, Option.none_bind]
    refine ⟨?_, ?_, ?_⟩ <;> cases json.decodeMembers Server.fields pre cur <;> rfl
  · simp only [Server_decode_obj, json.decodeMembers_append, Server_store_core_number,
      Server_store_memory_amount, Server_store_progress, hnull, Option.some_bind,
      json.decodeMembers_nil]
    refine ⟨?_, ?_, ?_⟩ <;> cases json.decodeMembers Server.fields ms cur <;> rfl
  · intro hpost
    simp only [Server_decode_obj, json.decodeMembers_append, Server_store_core_number, hq,
      Option.some_bind]
    cases json.decodeMembers Server.fields pre cur with
    | none => rfl
    | some c =>
      exact Server_post_commute "core_number" (fun sv => { sv with CoreNumber := n })
        (Server_fields_commute_core_number n) post hpost c
  · intro hpost
    simp only [Server_decode_obj, json.decodeMembers_append, Server_store_memory_amount, hq,
      Option.some_bind]
    cases json.decodeMembers Server.fields pre cur with
    | none => rfl
    | some c =>
      exact Server_post_commute "memory_amount" (fun sv => { sv with MemoryAmount := n })
        (Server_fields_commute_memory_amount n) post hpost c
  · intro hpost
    simp only [Server_decode_obj, json.decodeMembers_append, Server_store_progress, hq,
      Option.some_bind]
    cases json.decodeMembers Server.fields pre cur with
    | none => rfl
    | some c =>
      exact Server_post_commute "progress" (fun sv => { sv with Progress := n })
        (Server_fields_commute_progress n) post hpost c

/-- Witness of C9 (amended): `core_number` as `"2"` decodes to 2, alone and
between other members, and as `"x"` it fails. -/
theorem C9_quoted_integer_fields_witness :
    Server.decode (JSON.obj [("core_number", JSON.str "2")]) Server.zero
      = some { Server.zero with CoreNumber := 2 } ∧
    Server.decode (JSON.obj [("core_number", JSON.str "x")]) Server.zero = none ∧
    Server.decode (JSON.obj [("uuid", JSON.str "u1"), ("core_number", JSON.str "2"),
        ("hostname", JSON.str "web1")]) Server.zero
      = some { Server.zero with UUID := "u1", Hostname := "web1", CoreNumber := 2 } :=
  ⟨(C9_quoted_integer_fields [] [] [] Server.zero 2 (by decide) "x" (by decide) (by decide)).1.1,
   (C9_quoted_integer_fields [] [] [] Server.zero 2 (by decide) "x" (by decide)
      (by decide)).2.1.1,
   ((C9_quoted_integer_fields [] [("uuid", JSON.str "u1")] [("hostname", JSON.str "web1")]
      Server.zero 2 (by decide) "x" (by decide) (by decide)).2.2.2.1 (by decide)).trans
      (by decide)⟩

/-- C10: for a server-list body whose `N` entries `xs` each decode, decoding
with `Servers.UnmarshalJSON` and encoding the resulting `Servers` value again
gives a body with the single member `servers` holding an array of exactly `N`
entries, the i-th one being the encoding of the decoding of the i-th entry of
the response. `fmtFloat` is the text the library gives a finite `float64`. -/
theorem C10_decode_encode_keeps_list (fmtFloat : Float64 → String) (s : Servers)
    (xs : List JSON) (ss : List Server)
    (h : List.Forall₂ (fun x sv => Server.decode x Server.zero = some sv) xs ss) :
    (Servers.UnmarshalJSON s
      (JSON.obj [("servers", JSON.obj [("server", JSON.arr xs)])])).failed = false ∧
    ∃ js, Servers.encode fmtFloat (Servers.UnmarshalJSON s
        (JSON.obj [("servers", JSON.obj [("server", JSON.arr xs)])])).recv
          = some (JSON.obj [("servers", JSON.arr js)]) ∧
      js.length = xs.length ∧
      List.Forall₂ (fun sv j => Server.encode fmtFloat sv = some j) ss js := by
  rw [Servers_UnmarshalJSON_list s xs ss h]
  refine ⟨rfl, ?_⟩
  have hall : ∀ sv ∈ ss, (Server.encode fmtFloat sv).isSome := by
    intro sv hsv
    obtain ⟨x, hx⟩ := decoded_of_mem xs ss h sv hsv
    exact Server_encode_finite fmtFloat sv (Server_decode_finite x sv hx)
  obtain ⟨js, hjs⟩ := json.encodeElems_isSome (Server.encode fmtFloat) ss hall
  have hf := (json.encodeElems_forall₂ (Server.encode fmtFloat) ss js).1 hjs
  exact ⟨js, by simp [Servers.encode, json.encodeSlice, hjs],
    by rw [← hf.length_eq, h.length_eq], hf⟩

/-- Witness of C10: a body with two entries is decoded and encoded again to a
list of two entries. -/
theorem C10_decode_encode_keeps_list_witness :
    ∃ js, Servers.encode (fun _ => "0") (Servers.UnmarshalJSON ⟨Slice.nil⟩
        (JSON.obj [("servers", JSON.obj [("server", JSON.arr
          [JSON.obj [("uuid", JSON.str "u1"), ("core_number", JSON.str "2")],
           JSON.obj [("uuid", JSON.str "u2")]])])])).recv
          = some (JSON.obj [("servers", JSON.arr js)]) ∧
      js.length = 2 :=
  have h := (C10_decode_encode_keeps_list (fun _ => "0") ⟨Slice.nil⟩
    [JSON.obj [("uuid", JSON.str "u1"), ("core_number", JSON.str "2")],
     JSON.obj [("uuid", JSON.str "u2")]]
    [{ Server.zero with UUID := "u1", CoreNumber := 2 }, { Server.zero with UUID := "u2" }]
    (List.Forall₂.cons (by decide) (List.Forall₂.cons (by decide) List.Forall₂.nil))).2
  h.elim (fun js hjs => ⟨js, hjs.1, hjs.2.1⟩)

end upcloud

/-! ## Claims on further addresses, timeouts and the create request -/

namespace request

theorem tdiv_eq_zero_iff_abs_lt (d c : Int) (hc : 0 < c) : d.tdiv c = 0 ↔ |d| < c := by
  obtain ⟨h1, h2, h3⟩ := tdiv_truncates d c hc
  constructor
  · intro h0
    rw [h0, zero_mul, zero_add] at h1
    rw [← h1] at h2
    exact h2
  · intro h
    rcases le_or_lt 0 d with hd | hd
    · rw [abs_of_nonneg hd] at h
      exact Int.tdiv_eq_zero_of_lt hd h
    · rw [abs_of_neg hd] at h
      have := Int.tdiv_eq_zero_of_lt (a := -d) (b := c) (by omega) h
      rw [Int.neg_tdiv] at this
      omega

theorem StopServerRequest_MarshalJSON_eq (s : StopServerRequest) :
    StopServerRequest.MarshalJSON s = some (JSON.obj [("stop_server", JSON.obj
      (json.stringField "stop_type" true s.StopType ++
        json.intField "timeout" true true (s.Timeout.tdiv 1000000000)))]) := rfl

theorem RestartServerRequest_MarshalJSON_eq (r : RestartServerRequest) :
    RestartServerRequest.MarshalJSON r = some (JSON.obj [("restart_server", JSON.obj
      (json.stringField "stop_type" true r.StopType ++
        json.intField "timeout" true true (r.Timeout.tdiv 1000000000) ++
        json.stringField "timeout_action" true r.TimeoutAction))]) := rfl

theorem mem_stringField_key (n : String) (o : Bool) (v k : String) :
    k ∈ (json.stringField n o v).map Prod.fst ↔ k = n ∧ ¬ (o = true ∧ v = "") := by
  unfold json.stringField
  split <;> rename_i h <;> simp [h]

theorem mem_intField_key (n : String) (o q : Bool) (v : Int) (k : String) :
    k ∈ (json.intField n o q v).map Prod.fst ↔ k = n ∧ ¬ (o = true ∧ v = 0) := by
  unfold json.intField
  split <;> rename_i h <;> simp [h]

/-- C13: the address of a delete-with-storages request is the address of the
plain delete request followed by `/?storages=1`, and the delete, details and
modify requests all address `/server/` followed by the UUID. -/
theorem C13_delete_urls (u : String) (m : ModifyServerRequest) :
    (DeleteServerAndStoragesRequest.mk u).RequestURL
      = (DeleteServerRequest.mk u).RequestURL ++ "/?storages=1" ∧
    (DeleteServerRequest.mk u).RequestURL = "/server/" ++ u ∧
    (GetServerDetailsRequest.mk u).RequestURL = "/server/" ++ u ∧
    m.RequestURL = "/server/" ++ m.UUID := by
  refine ⟨?_, ?_, ?_, ?_⟩ <;> apply String.ext <;>
    simp [DeleteServerAndStoragesRequest.RequestURL, DeleteServerRequest.RequestURL,
      GetServerDetailsRequest.RequestURL, ModifyServerRequest.RequestURL, fmt.Sprintf,
      fmt.SprintfAux]

/-- C14: a stop or restart request whose timeout `d` lies strictly between -1 s
and 1 s has the same JSON body as the request with timeout 0, and the body of
any stop or restart request carries a `timeout` member exactly when
`|d| ≥ 10^9` nanoseconds. -/
theorem C14_subsecond_timeout_absent (s : StopServerRequest) (r : RestartServerRequest) :
    ((-(10 ^ 9) < s.Timeout ∧ s.Timeout < 10 ^ 9) →
      StopServerRequest.MarshalJSON s = StopServerRequest.MarshalJSON { s with Timeout := 0 }) ∧
    ((-(10 ^ 9) < r.Timeout ∧ r.Timeout < 10 ^ 9) →
      RestartServerRequest.MarshalJSON r
        = RestartServerRequest.MarshalJSON { r with Timeout := 0 }) ∧
    (∃ fs, StopServerRequest.MarshalJSON s = some (JSON.obj [("stop_server", JSON.obj fs)]) ∧
      ("timeout" ∈ fs.map Prod.fst ↔ 10 ^ 9 ≤ |s.Timeout|)) ∧
    (∃ fs, RestartServerRequest.MarshalJSON r
        = some (JSON.obj [("restart_server", JSON.obj fs)]) ∧
      ("timeout" ∈ fs.map Prod.fst ↔ 10 ^ 9 ≤ |r.Timeout|)) := by
  have hz : ∀ d : Int, (-(10 ^ 9) < d ∧ d < 10 ^ 9) → d.tdiv 1000000000 = 0 := by
    intro d hd
    exact (tdiv_eq_zero_iff_abs_lt d 1000000000 (by norm_num)).2 (abs_lt.2 ⟨by omega, by omega⟩)
  have hk : ∀ d : Int, ¬ (d.tdiv 1000000000 = 0) ↔ 10 ^ 9 ≤ |d| := by
    intro d
    rw [tdiv_eq_zero_iff_abs_lt d 1000000000 (by norm_num)]
    norm_num
  refine ⟨?_, ?_, ⟨_, StopServerRequest_MarshalJSON_eq s, ?_⟩,
    ⟨_, RestartServerRequest_MarshalJSON_eq r, ?_⟩⟩
  · intro hd
    rw [StopServerRequest_MarshalJSON_eq, StopServerRequest_MarshalJSON_eq, hz s.Timeout hd]
    rfl
  · intro hd
    rw [RestartServerRequest_MarshalJSON_eq, RestartServerRequest_MarshalJSON_eq,
      hz r.Timeout hd]
    rfl
  · simp only [List.map_append, List.mem_append, mem_stringField_key, mem_intField_key]
    rw [← hk s.Timeout]
    simp
  · simp only [List.map_append, List.mem_append, mem_stringField_key, mem_intField_key]
    rw [← hk r.Timeout]
    simp

/-- Witness of C14: a stop request with a timeout of 500 ms has the body of the
request without timeout. -/
theorem C14_subsecond_timeout_absent_witness :
    StopServerRequest.MarshalJSON ⟨⟨"", ""⟩, "0077fa3d", "soft", 500000000⟩
      = StopServerRequest.MarshalJSON ⟨⟨"", ""⟩, "0077fa3d", "soft", 0⟩ :=
  (C14_subsecond_timeout_absent ⟨⟨"", ""⟩, "0077fa3d", "soft", 500000000⟩
    ⟨⟨"", ""⟩, "", "", 0, ""⟩).1 (by decide)

set_option maxRecDepth 100000 in
/-- C12 fails at a timeout of 16777216.999999999 seconds: `MarshalXML` emits
`16777217`, because `Duration.Seconds` rounds the sum of whole seconds and
fraction to the nearest `float64` before `int` truncates, while `MarshalJSON`
emits the truncated `16777216`. At 90.7 seconds both emit `90`. -/
theorem C12_xml_timeout_rounds_up :
    StopServerRequest.MarshalXML ⟨⟨"", ""⟩, "0077fa3d", "", 16777216999999999⟩
      = some (XML.elem "stop_server" [XML.elem "timeout" [XML.text "16777217"]]) ∧
    StopServerRequest.MarshalJSON ⟨⟨"", ""⟩, "0077fa3d", "", 16777216999999999⟩
      = some (JSON.obj [("stop_server", JSON.obj [("timeout", JSON.str "16777216")])]) ∧
    RestartServerRequest.MarshalXML ⟨⟨"", ""⟩, "0077fa3d", "", 16777216999999999, ""⟩
      = some (XML.elem "restart_server" [XML.elem "timeout" [XML.text "16777217"]]) ∧
    RestartServerRequest.MarshalJSON ⟨⟨"", ""⟩, "0077fa3d", "", 16777216999999999, ""⟩
      = some (JSON.obj [("restart_server", JSON.obj [("timeout", JSON.str "16777216")])]) ∧
    Int.tdiv 16777216999999999 (10 ^ 9) = 16777216 ∧
    StopServerRequest.MarshalXML ⟨⟨"", ""⟩, "0077fa3d", "", 90700000000⟩
      = some (XML.elem "stop_server" [XML.elem "timeout" [XML.text "90"]]) := by
  decide

theorem loginUserField_keys (u : Option LoginUser) (login : List (String × JSON))
    (h : CreateServerRequest.loginUserField u = some login) (k : String) :
    k ∈ login.map Prod.fst ↔ k = "login_user" ∧ u ≠ none := by
  cases u with
  | none =>
    simp only [CreateServerRequest.loginUserField, Option.some.injEq] at h
    subst h
    simp
  | some x =>
    simp only [CreateServerRequest.loginUserField] at h
    split at h
    · simp at h
    · simp only [Option.some.injEq] at h
      subst h
      simp

/-- C11: a create request whose storage devices encode produces a body whose
`server` object always holds `hostname`, `title` and `zone` with the values of
the record (empty ones included) and `ip_addresses` and `storage_devices` with
the wrapped lists, while each other member is present exactly when its field is
set (non-empty string, non-zero integer, non-nil `login_user`). The zero value
encodes to the five mandatory members alone. -/
theorem C11_create_mandatory_members {SD : Type} (encSD : SD → Option JSON)
    (r : CreateServerRequest SD) (hsd : ∀ d ∈ r.StorageDevices.toList, (encSD d).isSome) :
    (∃ fs ips sds, CreateServerRequest.MarshalJSON encSD r
        = some (JSON.obj [("server", JSON.obj fs)]) ∧
      CreateServerIPAddressSlice.MarshalJSON r.IPAddresses = some ips ∧
      CreateServerStorageDeviceSlice.MarshalJSON encSD r.StorageDevices = some sds ∧
      (("hostname", JSON.str r.Hostname) ∈ fs ∧ ("title", JSON.str r.Title) ∈ fs ∧
        ("zone", JSON.str r.Zone) ∈ fs ∧ ("ip_addresses", ips) ∈ fs ∧
        ("storage_devices", sds) ∈ fs) ∧
      (("avoid_host" ∈ fs.map Prod.fst ↔ r.AvoidHost ≠ "") ∧
        ("boot_order" ∈ fs.map Prod.fst ↔ r.BootOrder ≠ "") ∧
        ("core_number" ∈ fs.map Prod.fst ↔ r.CoreNumber ≠ 0) ∧
        ("firewall" ∈ fs.map Prod.fst ↔ r.Firewall ≠ "") ∧
        ("login_user" ∈ fs.map Prod.fst ↔ r.LoginUser ≠ none) ∧
        ("memory_amount" ∈ fs.map Prod.fst ↔ r.MemoryAmount ≠ 0) ∧
        ("password_delivery" ∈ fs.map Prod.fst ↔ r.PasswordDelivery ≠ "") ∧
        ("plan" ∈ fs.map Prod.fst ↔ r.Plan ≠ "") ∧
        ("timezone" ∈ fs.map Prod.fst ↔ r.TimeZone ≠ "") ∧
        ("user_data" ∈ fs.map Prod.fst ↔ r.UserData ≠ "") ∧
        ("video_model" ∈ fs.map Prod.fst ↔ r.VideoModel ≠ "") ∧
        ("vnc" ∈ fs.map Prod.fst ↔ r.VNC ≠ "") ∧
        ("vnc_password" ∈ fs.map Prod.fst ↔ r.VNCPassword ≠ ""))) ∧
    CreateServerRequest.MarshalJSON encSD CreateServerRequest.zero
      = some (JSON.obj [("server", JSON.obj
          [("hostname", JSON.str ""),
           ("ip_addresses", JSON.obj [("ip_address", JSON.null)]),
           ("storage_devices", JSON.obj [("storage_device", JSON.null)]),
           ("title", JSON.str ""), ("zone", JSON.str "")])]) := by
  refine ⟨?_, ?_⟩
  swap
  · simp [CreateServerRequest.MarshalJSON, CreateServerRequest.encode, CreateServerRequest.zero,
      CreateServerIPAddressSlice.MarshalJSON, CreateServerStorageDeviceSlice.MarshalJSON,
      CreateServerRequest.loginUserField, json.encodeSlice, json.stringField, json.intField]
  obtain ⟨ips, hips⟩ := IPAddressSlice_MarshalJSON_some r.IPAddresses
  obtain ⟨login, hlogin⟩ := loginUserField_some r.LoginUser
  obtain ⟨sds, hsds⟩ := StorageDeviceSlice_MarshalJSON_some encSD r.StorageDevices hsd
  have hl := loginUserField_keys r.LoginUser login hlogin
  refine ⟨json.stringField "avoid_host" true r.AvoidHost ++
      json.stringField "boot_order" true r.BootOrder ++
      json.intField "core_number" true false r.CoreNumber ++
      json.stringField "firewall" true r.Firewall ++
      json.stringField "hostname" false r.Hostname ++
      [("ip_addresses", ips)] ++
      login ++
      json.intField "memory_amount" true false r.MemoryAmount ++
      json.stringField "password_delivery" true r.PasswordDelivery ++
      json.stringField "plan" true r.Plan ++
      [("storage_devices", sds)] ++
      json.stringField "timezone" true r.TimeZone ++
      json.stringField "title" false r.Title ++
      json.stringField "user_data" true r.UserData ++
      json.stringField "video_model" true r.VideoModel ++
      json.stringField "vnc" true r.VNC ++
      json.stringField "vnc_password" true r.VNCPassword ++
      json.stringField "zone" false r.Zone, ips, sds, ?_, hips, hsds, ?_, ?_⟩
  · simp only [CreateServerRequest.MarshalJSON, CreateServerRequest.encode, hips, hlogin, hsds]
  · simp [json.stringField]
  · simp only [List.map_append, List.mem_append, mem_stringField_key, mem_intField_key, hl,
      List.map_cons, List.map_nil, List.mem_singleton]
    simp

/-- Witness of C11: a create request with a hostname, a plan and one storage
device. -/
theorem C11_create_mandatory_members_witness :
    ∃ fs, CreateServerRequest.MarshalJSON (fun d : String => some (JSON.obj [("storage", JSON.str d)]))
        { (CreateServerRequest.zero : CreateServerRequest String) with
          Hostname := "web1", Plan := "1xCPU-1GB", StorageDevices := Slice.mk ["disk0"] [] }
        = some (JSON.obj [("server", JSON.obj fs)]) ∧
      ("hostname", JSON.str "web1") ∈ fs ∧ ("title", JSON.str "") ∈ fs ∧
      ("plan" ∈ fs.map Prod.fst ↔ "1xCPU-1GB" ≠ "") ∧
      ("vnc" ∈ fs.map Prod.fst ↔ "" ≠ "") := by
  obtain ⟨fs, _, _, h, _, _, hm, ho⟩ := (C11_create_mandatory_members
    (fun d : String => some (JSON.obj [("storage", JSON.str d)]))
    { (CreateServerRequest.zero : CreateServerRequest String) with
      Hostname := "web1", Plan := "1xCPU-1GB", StorageDevices := Slice.mk ["disk0"] [] }
    (by simp [Slice.toList])).1
  exact ⟨fs, h, hm.1, hm.2.1, ho.2.2.2.2.2.2.2.1, ho.2.2.2.2.2.2.2.2.2.2.2.1⟩

end request

/-! ## Lemmas on UTF-8 -/

namespace utf8

theorem toNat_ofNat_byte (k : Nat) (h : k < 256) : (UInt8.ofNat k).toNat = k := by
  simp [UInt8.toNat, UInt8.ofNat, Fin.ofNat, Nat.mod_eq_of_lt h]

theorem char_range (c : Char) :
    c.toNat < 0xD800 ∨ (0xDFFF < c.toNat ∧ c.toNat < 0x110000) := by
  have h := c.valid
  simp only [UInt32.isValidChar, Nat.isValidChar] at h
  exact h

theorem DecodeRune_EncodeRune (c : Char) (rest : List UInt8) :
    DecodeRune (EncodeRune c ++ rest) = some (c, rest) := by
  have hr := char_range c
  have hc : ∀ n, n = c.toNat → Char.ofNat n = c := fun n hn => hn ▸ Char.ofNat_toNat c
  unfold EncodeRune
  simp only []
  split
  · rename_i h1
    have e0 := toNat_ofNat_byte c.toNat (by omega)
    simp only [List.singleton_append, DecodeRune, e0, h1, if_true]
    rw [hc _ rfl]
  · split
    · rename_i h1 h2
      have e0 := toNat_ofNat_byte (0xC0 + c.toNat / 64) (by omega)
      have e1 := toNat_ofNat_byte (0x80 + c.toNat % 64) (by omega)
      have a1 : ¬ (0xC0 + c.toNat / 64 < 0x80) := by omega
      have a2 : 0xC2 ≤ 0xC0 + c.toNat / 64 ∧ 0xC0 + c.toNat / 64 ≤ 0xDF := by omega
      have a3 : 0x80 ≤ 0x80 + c.toNat % 64 ∧ 0x80 + c.toNat % 64 ≤ 0xBF := by omega
      simp only [List.cons_append, List.nil_append, DecodeRune, e0, e1, a1, a2, a3, if_true,
        if_false, and_self]
      rw [hc _ (by omega)]
    · split
      · rename_i h1 h2 h3
        have e0 := toNat_ofNat_byte (0xE0 + c.toNat / 4096) (by omega)
        have e1 := toNat_ofNat_byte (0x80 + c.toNat / 64 % 64) (by omega)
        have e2 := toNat_ofNat_byte (0x80 + c.toNat % 64) (by omega)
        have a1 : ¬ (0xE0 + c.toNat / 4096 < 0x80) := by omega
        have a2 : ¬ (0xC2 ≤ 0xE0 + c.toNat / 4096 ∧ 0xE0 + c.toNat / 4096 ≤ 0xDF) := by omega
        have a3 : 0xE0 ≤ 0xE0 + c.toNat / 4096 ∧ 0xE0 + c.toNat / 4096 ≤ 0xEF := by omega
        have a4 : (if 0xE0 + c.toNat / 4096 = 0xE0 then 0xA0 else 0x80)
            ≤ 0x80 + c.toNat / 64 % 64 ∧
            0x80 + c.toNat / 64 % 64 ≤ (if 0xE0 + c.toNat / 4096 = 0xED then 0x9F else 0xBF) ∧
            0x80 ≤ 0x80 + c.toNat % 64 ∧ 0x80 + c.toNat % 64 ≤ 0xBF := by
          split <;> split <;> omega
        simp only [List.cons_append, List.nil_append, DecodeRune, e0, e1, e2, a1, a2, a3, a4,
          if_true, if_false, and_self]
        rw [hc _ (by omega)]
      · rename_i h1 h2 h3
        have e0 := toNat_ofNat_byte (0xF0 + c.toNat / 262144) (by omega)
        have e1 := toNat_ofNat_byte (0x80 + c.toNat / 4096 % 64) (by omega)
        have e2 := toNat_ofNat_byte (0x80 + c.toNat / 64 % 64) (by omega)
        have e3 := toNat_ofNat_byte (0x80 + c.toNat % 64) (by omega)
        have a1 : ¬ (0xF0 + c.toNat / 262144 < 0x80) := by omega
        have a2 : ¬ (0xC2 ≤ 0xF0 + c.toNat / 262144 ∧ 0xF0 + c.toNat / 262144 ≤ 0xDF) := by
          omega
        have a3 : ¬ (0xE0 ≤ 0xF0 + c.toNat / 262144 ∧ 0xF0 + c.toNat / 262144 ≤ 0xEF) := by
          omega
        have a4 : 0xF0 ≤ 0xF0 + c.toNat / 262144 ∧ 0xF0 + c.toNat / 262144 ≤ 0xF4 := by omega
        have a5 : (if 0xF0 + c.toNat / 262144 = 0xF0 then 0x90 else 0x80)
            ≤ 0x80 + c.toNat / 4096 % 64 ∧
            0x80 + c.toNat / 4096 % 64
              ≤ (if 0xF0 + c.toNat / 262144 = 0xF4 then 0x8F else 0xBF) ∧
            0x80 ≤ 0x80 + c.toNat / 64 % 64 ∧ 0x80 + c.toNat / 64 % 64 ≤ 0xBF ∧
            0x80 ≤ 0x80 + c.toNat % 64 ∧ 0x80 + c.toNat % 64 ≤ 0xBF := by
          split <;> split <;> omega
        simp only [List.cons_append, List.nil_append, DecodeRune, e0, e1, e2, e3, a1, a2, a3, a4,
          a5, if_true, if_false, and_self]
        rw [hc _ (by omega)]

theorem EncodeRune_length_pos (c : Char) : 0 < (EncodeRune c).length := by
  unfold EncodeRune
  simp only []
  split
  · simp
  · split
    · simp
    · split <;> simp

theorem toValidAux_encodeChars :
    ∀ (cs : List Char) (fuel : Nat), (encodeChars cs).length ≤ fuel →
      toValidAux fuel (encodeChars cs) = cs
  | [], fuel, _ => by
    cases fuel <;> rfl
  | c :: cs, fuel, h => by
    have hpos := EncodeRune_length_pos c
    simp only [encodeChars, List.length_append] at h
    cases fuel with
    | zero => omega
    | succ fuel =>
      have hd := DecodeRune_EncodeRune c (encodeChars cs)
      cases he : EncodeRune c with
      | nil => simp [he] at hpos
      | cons b bs =>
        rw [he] at hd h
        simp only [List.length_cons] at h
        simp only [encodeChars, he, List.cons_append] at hd ⊢
        simp only [toValidAux, hd]
        rw [toValidAux_encodeChars cs fuel (by omega)]

/-- Reading the bytes of a text gives the text back. -/
theorem toValid_ofText (s : String) : toValid (ofText s) = s := by
  simp only [toValid, ofText]
  rw [toValidAux_encodeChars s.data _ (le_refl _)]

end utf8

/-! ## Claims on the SSH key list and on the tag addresses -/

namespace request

theorem SSHKeySlice_UnmarshalJSON_wrapped (recv : SSHKeySlice) (j : JSON) :
    SSHKeySlice.UnmarshalJSON recv (JSON.obj [("ssh_key", j)])
      = match json.decodeSlice json.storeGoString [] j Slice.nil with
        | none => ⟨recv, true⟩
        | some l => ⟨l, false⟩ := by
  simp only [SSHKeySlice.UnmarshalJSON, json.decodeStruct, json.decodeMembers, json.findField,
    SSHKeySlice.local.fields, List.find?, beq_self_eq_true]
  cases json.decodeSlice json.storeGoString [] j Slice.nil <;> rfl

theorem storeGoString_valid (es : List GoString)
    (hv : ∀ k ∈ es, ∃ t : String, k = utf8.ofText t) :
    List.Forall₂ (fun x a => json.storeGoString x [] = some a)
      (es.map (fun k => JSON.str (utf8.toValid k))) es := by
  induction es with
  | nil => exact List.Forall₂.nil
  | cons e es ih =>
    obtain ⟨t, ht⟩ := hv e (List.mem_cons_self _ _)
    refine List.Forall₂.cons ?_ (ih (fun k hk => hv k (List.mem_cons_of_mem _ hk)))
    simp only [json.storeGoString, ht, utf8.toValid_ofText]

/-- C16 as stated fails for a key that is not valid UTF-8: the key with the
bytes `a`, 0xFF, `b` is encoded as the text `a`, U+FFFD, `b`, and decoding gives
the five bytes of that text, not the three bytes of the key. -/
theorem C16_invalid_utf8_counterexample :
    SSHKeySlice.MarshalJSON (Slice.mk [[0x61, 0xFF, 0x62]] [])
      = some (JSON.obj [("ssh_key", JSON.arr [JSON.str ⟨['a', Char.ofNat 0xFFFD, 'b']⟩])]) ∧
    SSHKeySlice.UnmarshalJSON Slice.nil
        (JSON.obj [("ssh_key", JSON.arr [JSON.str ⟨['a', Char.ofNat 0xFFFD, 'b']⟩])])
      = ⟨Slice.mk [[0x61, 0xEF, 0xBF, 0xBD, 0x62]] [], false⟩ ∧
    (Slice.mk [[0x61, 0xEF, 0xBF, 0xBD, 0x62]] [] : SSHKeySlice).toList
      ≠ (Slice.mk [[0x61, 0xFF, 0x62]] [] : SSHKeySlice).toList := by
  decide

/-- C16 (amended): for a list `s` of keys that are valid UTF-8 (each one the
bytes of some text), decoding what `SSHKeySlice.MarshalJSON` produced for `s`
succeeds and gives back the keys of `s`, same bytes, order and length, whatever
the receiver held before; a nil slice comes back nil, a non-nil one non-nil. -/
theorem C16_sshkeys_roundtrip_valid (s recv : SSHKeySlice)
    (hv : ∀ k ∈ s.toList, ∃ t : String, k = utf8.ofText t) :
    ∃ j, SSHKeySlice.MarshalJSON s = some j ∧
      (SSHKeySlice.UnmarshalJSON recv j).failed = false ∧
      (SSHKeySlice.UnmarshalJSON recv j).recv.toList = s.toList ∧
      ((SSHKeySlice.UnmarshalJSON recv j).recv = Slice.nil ↔ s = Slice.nil) := by
  cases s with
  | nil =>
    refine ⟨JSON.obj [("ssh_key", JSON.null)], rfl, ?_⟩
    rw [SSHKeySlice_UnmarshalJSON_wrapped]
    simp [json.decodeSlice]
  | mk es sp =>
    refine ⟨_, SSHKeySlice_MarshalJSON_mk es sp, ?_⟩
    rw [SSHKeySlice_UnmarshalJSON_wrapped,
      json.decodeSlice_arr_fresh json.storeGoString [] _ es (storeGoString_valid es hv)]
    simp [Slice.toList]

/-- Witness of C16 (amended): two keys, one of them with characters outside
ASCII, over a receiver that held another key. -/
theorem C16_sshkeys_roundtrip_valid_witness :
    ∃ j, SSHKeySlice.MarshalJSON (Slice.mk [utf8.ofText "ssh-rsa AAAA", utf8.ofText "clé€"] [])
        = some j ∧
      (SSHKeySlice.UnmarshalJSON (Slice.mk [utf8.ofText "old"] []) j).recv.toList
        = [utf8.ofText "ssh-rsa AAAA", utf8.ofText "clé€"] :=
  (C16_sshkeys_roundtrip_valid (Slice.mk [utf8.ofText "ssh-rsa AAAA", utf8.ofText "clé€"] [])
    (Slice.mk [utf8.ofText "old"] [])
    (fun k hk => by
      simp only [Slice.toList, List.mem_cons, List.mem_singleton, List.not_mem_nil,
        or_false] at hk
      rcases hk with rfl | rfl
      · exact ⟨"ssh-rsa AAAA", rfl⟩
      · exact ⟨"clé€", rfl⟩)).elim
    (fun j hj => ⟨j, hj.1, hj.2.2.1⟩)

theorem intercalate_go_data (sep : String) :
    ∀ (ts : List String) (acc : String),
      (String.intercalate.go acc sep ts).data
        = acc.data ++ ts.foldr (fun t rest => sep.data ++ (t.data ++ rest)) []
  | [], acc => by simp [String.intercalate.go]
  | t :: ts, acc => by
    simp [String.intercalate.go, intercalate_go_data sep ts (acc ++ sep ++ t)]

/-- Characters of a joined non-empty tag list: the first name, then a comma and
a name for every later tag. -/
theorem join_data (t : String) (ts : List String) :
    (strings.Join (t :: ts) ",").data
      = t.data ++ ts.foldr (fun x rest => ',' :: (x.data ++ rest)) [] := by
  rw [strings.Join_eq_intercalate]
  simp only [String.intercalate]
  rw [intercalate_go_data]
  rfl

theorem comma_split :
    ∀ (l1 l2 r1 r2 : List Char), ',' ∉ l1 → ',' ∉ l2 →
      (r1 = [] ∨ ∃ t, r1 = ',' :: t) → (r2 = [] ∨ ∃ t, r2 = ',' :: t) →
      l1 ++ r1 = l2 ++ r2 → l1 = l2 ∧ r1 = r2
  | [], [], r1, r2, _, _, _, _, h => ⟨rfl, by simpa using h⟩
  | [], d :: l2, r1, r2, _, h2, hr1, _, h => by
    exfalso
    simp only [List.nil_append, List.cons_append] at h
    rcases hr1 with rfl | ⟨t, rfl⟩
    · simp at h
    · have := (List.cons.inj h).1
      exact h2 (this ▸ List.mem_cons_self _ _)
  | c :: l1, [], r1, r2, h1, _, _, hr2, h => by
    exfalso
    simp only [List.nil_append, List.cons_append] at h
    rcases hr2 with rfl | ⟨t, rfl⟩
    · simp at h
    · have := (List.cons.inj h).1
      exact h1 (this ▸ List.mem_cons_self _ _)
  | c :: l1, d :: l2, r1, r2, h1, h2, hr1, hr2, h => by
    simp only [List.cons_append] at h
    obtain ⟨hcd, ht⟩ := List.cons.inj h
    obtain ⟨hl, hr⟩ := comma_split l1 l2 r1 r2
      (fun hm => h1 (List.mem_cons_of_mem _ hm)) (fun hm => h2 (List.mem_cons_of_mem _ hm))
      hr1 hr2 ht
    exact ⟨by rw [hcd, hl], hr⟩

theorem tail_shape (ts : List String) :
    ts.foldr (fun x rest => ',' :: (x.data ++ rest)) [] = [] ∨
      ∃ t, ts.foldr (fun x rest => ',' :: (x.data ++ rest)) [] = ',' :: t := by
  cases ts with
  | nil => exact Or.inl rfl
  | cons a as => exact Or.inr ⟨_, rfl⟩

theorem tail_injective :
    ∀ (as bs : List String), (∀ t ∈ as, ',' ∉ t.data) → (∀ t ∈ bs, ',' ∉ t.data) →
      as.foldr (fun x rest => ',' :: (x.data ++ rest)) []
        = bs.foldr (fun x rest => ',' :: (x.data ++ rest)) [] → as = bs
  | [], [], _, _, _ => rfl
  | [], b :: bs, _, _, h => by simp at h
  | a :: as, [], _, _, h => by simp at h
  | a :: as, b :: bs, ha, hb, h => by
    simp only [List.foldr_cons, List.cons.injEq, true_and] at h
    obtain ⟨h1, h2⟩ := comma_split a.data b.data _ _
      (ha a (List.mem_cons_self _ _)) (hb b (List.mem_cons_self _ _))
      (tail_shape as) (tail_shape bs) h
    have hab : a = b := String.ext h1
    have := tail_injective as bs (fun t ht => ha t (List.mem_cons_of_mem _ ht))
      (fun t ht => hb t (List.mem_cons_of_mem _ ht)) h2
    rw [hab, this]

/-- Joining with a comma is injective on non-empty lists of comma-free names. -/
theorem join_injective (as bs : List String) (ha : as ≠ []) (hb : bs ≠ [])
    (hca : ∀ t ∈ as, ',' ∉ t.data) (hcb : ∀ t ∈ bs, ',' ∉ t.data)
    (h : strings.Join as "," = strings.Join bs ",") : as = bs := by
  cases as with
  | nil => exact absurd rfl ha
  | cons a as =>
    cases bs with
    | nil => exact absurd rfl hb
    | cons b bs =>
      have hd := congrArg String.data h
      rw [join_data, join_data] at hd
      obtain ⟨h1, h2⟩ := comma_split a.data b.data _ _
        (hca a (List.mem_cons_self _ _)) (hcb b (List.mem_cons_self _ _))
        (tail_shape as) (tail_shape bs) hd
      have hab : a = b := String.ext h1
      have := tail_injective as bs (fun t ht => hca t (List.mem_cons_of_mem _ ht))
        (fun t ht => hcb t (List.mem_cons_of_mem _ ht)) h2
      rw [hab, this]

theorem append_left_cancel (p x y : String) (h : p ++ x = p ++ y) : x = y := by
  have hd := congrArg String.data h
  simp only [String.data_append] at hd
  exact String.ext (List.append_cancel_left hd)

/-- C17: for a fixed UUID the tag address, and likewise the untag address,
determines a non-empty list of comma-free tag names: two such lists with the
same address are equal. Without non-emptiness this fails, the empty list and
the list holding one empty name both giving `/server/<uuid>/tag/`. -/
theorem C17_tag_url_injective (u : String) (as bs : List String) (ha : as ≠ []) (hb : bs ≠ [])
    (hca : ∀ t ∈ as, ',' ∉ t.data) (hcb : ∀ t ∈ bs, ',' ∉ t.data) :
    ((TagServerRequest.mk u as).RequestURL = (TagServerRequest.mk u bs).RequestURL → as = bs) ∧
    ((UntagServerRequest.mk u as).RequestURL = (UntagServerRequest.mk u bs).RequestURL →
      as = bs) ∧
    ((TagServerRequest.mk u []).RequestURL = "/server/" ++ u ++ "/tag/" ∧
      (TagServerRequest.mk u [""]).RequestURL = "/server/" ++ u ++ "/tag/" ∧
      ([] : List String) ≠ [""]) := by
  refine ⟨?_, ?_, ?_, ?_, by simp⟩
  · intro h
    rw [TagServerRequest_RequestURL_eq, TagServerRequest_RequestURL_eq] at h
    exact join_injective as bs ha hb hca hcb (append_left_cancel _ _ _ h)
  · intro h
    rw [UntagServerRequest_RequestURL_eq, UntagServerRequest_RequestURL_eq] at h
    exact join_injective as bs ha hb hca hcb (append_left_cancel _ _ _ h)
  · rw [TagServerRequest_RequestURL_eq]
    apply String.ext
    simp [strings.Join]
  · rw [TagServerRequest_RequestURL_eq]
    apply String.ext
    simp [strings.Join]

/-- Witness of C17: the comma-free lists `a, b` and `a, c` differ, hence so do
their tag addresses. -/
theorem C17_tag_url_injective_witness :
    (TagServerRequest.mk "0077fa3d" ["a", "b"]).RequestURL
      ≠ (TagServerRequest.mk "0077fa3d" ["a", "c"]).RequestURL :=
  fun h => absurd ((C17_tag_url_injective "0077fa3d" ["a", "b"] ["a", "c"] (by decide)
    (by decide) (by decide) (by decide)).1 h) (by decide)

end request

/-! ## Lemmas on field lookup and on the server details decoder -/

namespace json

/-- A property kept by the store function of every field that the keys of a
member list can address is kept by storing that member list. -/
theorem decodeMembers_invariant_on {T : Type} (fields : List (Field T)) (P : T → Prop) :
    ∀ (ms : List (String × JSON)) (cur res : T),
      (∀ kv ∈ ms, ∀ f, findField fields kv.1 = some f →
        ∀ j c next, f.store j c = some next → P c → P next) →
      decodeMembers fields ms cur = some res → P cur → P res
  | [], cur, res, _, h, hc => by
    simp only [decodeMembers, Option.some.injEq] at h
    exact h ▸ hc
  | (k, v) :: ms, cur, res, hms, h, hc => by
    rw [decodeMembers_cons] at h
    have hrest : ∀ kv ∈ ms, ∀ f, findField fields kv.1 = some f →
        ∀ j c next, f.store j c = some next → P c → P next :=
      fun kv hkv => hms kv (List.mem_cons_of_mem _ hkv)
    cases hf : findField fields k with
    | none =>
      rw [hf] at h
      exact decodeMembers_invariant_on fields P ms cur res hrest h hc
    | some f =>
      rw [hf] at h
      dsimp only at h
      cases hs : f.store v cur with
      | none => simp [hs] at h
      | some next =>
        rw [hs] at h
        exact decodeMembers_invariant_on fields P ms next res hrest h
          (hms (k, v) (List.mem_cons_self _ _) f hf v cur next hs hc)

theorem mem_promote {S T : Type} (own : List String) (get : T → S) (set : T → S → T)
    (inner : List (Field S)) (f : Field T) (h : f ∈ promote own get set inner) :
    ∃ g ∈ inner, own.contains g.name = false ∧
      f = ⟨g.name, fun j t => (g.store j (get t)).map (set t)⟩ := by
  simp only [promote, List.mem_map, List.mem_filter] at h
  obtain ⟨g, ⟨hg, hc⟩, rfl⟩ := h
  exact ⟨g, hg, by simpa using hc, rfl⟩

end json

namespace upcloud

theorem Server_fields_keep_core_number :
    ∀ g ∈ Server.fields, g.name ≠ "core_number" → ∀ (j : JSON) (cur next : Server),
      g.store j cur = some next → next.CoreNumber = cur.CoreNumber := by
  intro g hg hne j cur next hs
  simp only [Server.fields, List.mem_cons, List.mem_singleton, List.not_mem_nil, or_false] at hg
  rcases hg with rfl | rfl | rfl | rfl | rfl | rfl | rfl | rfl | rfl | rfl | rfl
  · exact absurd rfl hne
  all_goals
    simp only [Option.map_eq_some'] at hs
    obtain ⟨x, _, rfl⟩ := hs
    rfl

/-- Every field of `ServerDetails` leaves the embedded `Server.CoreNumber` as
it is. -/
theorem ServerDetails_fields_keep_inner {IP SD : Type} (ip : json.Elem IP) (sd : json.Elem SD) :
    ∀ f ∈ ServerDetails.fields ip sd, ∀ (j : JSON) (cur next : ServerDetails IP SD),
      f.store j cur = some next → cur.Server.CoreNumber = 0 → next.Server.CoreNumber = 0 := by
  intro f hf j cur next hs hc
  simp only [ServerDetails.fields, List.mem_append] at hf
  rcases hf with hf | hf
  · obtain ⟨g, hg, hown, rfl⟩ := json.mem_promote _ _ _ _ f hf
    have hne : g.name ≠ "core_number" := by
      intro he
      rw [he] at hown
      simp [ServerDetails.ownNames] at hown
    simp only [Option.map_eq_some'] at hs
    obtain ⟨x, hx, rfl⟩ := hs
    show x.CoreNumber = 0
    rw [Server_fields_keep_core_number g hg hne j cur.Server x hx]
    exact hc
  · simp only [ServerDetails.ownFields, List.mem_cons, List.mem_singleton, List.not_mem_nil,
      or_false] at hf
    rcases hf with rfl | rfl | rfl | rfl | rfl | rfl | rfl | rfl | rfl | rfl | rfl | rfl | rfl
    all_goals
      simp only [Option.map_eq_some'] at hs
      obtain ⟨x, _, rfl⟩ := hs
      exact hc

/-- Every field of `ServerDetails` other than `core_number` leaves the outer
`CoreNumber` as it is. -/
theorem ServerDetails_fields_keep_outer {IP SD : Type} (ip : json.Elem IP) (sd : json.Elem SD)
    (n : Int) :
    ∀ f ∈ ServerDetails.fields ip sd, f.name ≠ "core_number" →
      ∀ (j : JSON) (cur next : ServerDetails IP SD),
        f.store j cur = some next → cur.CoreNumber = n → next.CoreNumber = n := by
  intro f hf hne j cur next hs hc
  simp only [ServerDetails.fields, List.mem_append] at hf
  rcases hf with hf | hf
  · obtain ⟨g, _, _, rfl⟩ := json.mem_promote _ _ _ _ f hf
    simp only [Option.map_eq_some'] at hs
    obtain ⟨x, _, rfl⟩ := hs
    exact hc
  · simp only [ServerDetails.ownFields, List.mem_cons, List.mem_singleton, List.not_mem_nil,
      or_false] at hf
    rcases hf with rfl | rfl | rfl | rfl | rfl | rfl | rfl | rfl | rfl | rfl | rfl | rfl | rfl
    · simp only [Option.map_eq_some'] at hs
      obtain ⟨x, _, rfl⟩ := hs
      exact hc
    · exact absurd rfl hne
    all_goals
      simp only [Option.map_eq_some'] at hs
      obtain ⟨x, _, rfl⟩ := hs
      exact hc

theorem ServerDetails_UnmarshalJSON_wrapped {IP SD : Type} (ip : json.Elem IP)
    (sd : json.Elem SD) (s : ServerDetails IP SD) (j : JSON) :
    ServerDetails.UnmarshalJSON ip sd s (JSON.obj [("server", j)])
      = match json.decodeStruct (ServerDetails.fields ip sd) j ServerDetails.zero with
        | none => ⟨s, true⟩
        | some v => ⟨v, false⟩ := by
  have hf : json.findField (ServerDetails.local.fields ip sd) "server"
      = some ⟨"server", fun j v =>
          (json.decodeStruct (ServerDetails.fields ip sd) j v.ServerDetails).map
            (fun x => { v with ServerDetails := x })⟩ := by
    simp only [json.findField, ServerDetails.local.fields, List.find?, beq_self_eq_true]
  unfold ServerDetails.UnmarshalJSON
  rw [show json.decodeStruct (ServerDetails.local.fields ip sd) (JSON.obj [("server", j)])
        ⟨ServerDetails.zero⟩
      = json.decodeMembers (ServerDetails.local.fields ip sd) [("server", j)]
        ⟨ServerDetails.zero⟩ from rfl, json.decodeMembers_cons, hf]
  dsimp only
  cases json.decodeStruct (ServerDetails.fields ip sd) j ServerDetails.zero <;> rfl

theorem ServerDetails_store_core_number {IP SD : Type} (ip : json.Elem IP)
    (sd : json.Elem SD) (j : JSON) (rest : List (String × JSON)) (cur : ServerDetails IP SD) :
    json.decodeMembers (ServerDetails.fields ip sd) (("core_number", j) :: rest) cur
      = (json.storeIntString j cur.CoreNumber).bind (fun n =>
          json.decodeMembers (ServerDetails.fields ip sd) rest { cur with CoreNumber := n }) := by
  rw [json.decodeMembers_cons]
  have hf : json.findField (ServerDetails.fields ip sd) "core_number"
      = some ⟨"core_number", fun j s =>
          (json.storeIntString j s.CoreNumber).map (fun n => { s with CoreNumber := n })⟩ := by
    simp [json.findField, ServerDetails.fields, ServerDetails.ownFields, ServerDetails.ownNames,
      json.promote, Server.fields, List.find?, List.filter]
  rw [hf]
  dsimp only
  cases json.storeIntString j cur.CoreNumber <;> rfl

end upcloud

/-! ## Claims on server details and on decode failures -/

namespace upcloud

theorem ServerDetails_decode_inner_zero {IP SD : Type} (ip : json.Elem IP) (sd : json.Elem SD)
    (j : JSON) (v : ServerDetails IP SD)
    (h : json.decodeStruct (ServerDetails.fields ip sd) j ServerDetails.zero = some v) :
    v.Server.CoreNumber = 0 := by
  cases j with
  | null =>
    simp only [json.decodeStruct, Option.some.injEq] at h
    rw [← h]
    rfl
  | obj ms =>
    exact json.decodeMembers_invariant (ServerDetails.fields ip sd)
      (fun d => d.Server.CoreNumber = 0) (ServerDetails_fields_keep_inner ip sd) ms
      ServerDetails.zero v h rfl
  | bool b => simp [json.decodeStruct] at h
  | num lit => simp [json.decodeStruct] at h
  | str s => simp [json.decodeStruct] at h
  | arr es => simp [json.decodeStruct] at h

/-- C15: a server-details body whose `server` object carries `core_number` as
the quoted decimal text of a 64-bit integer `n` (no later member addressing that
field again) and which decodes successfully leaves `n` in the outer
`ServerDetails.CoreNumber` while the embedded `Server.CoreNumber` stays 0; the
embedded field stays 0 for every body that decodes. -/
theorem C15_core_number_outer_only {IP SD : Type} (ip : json.Elem IP) (sd : json.Elem SD)
    (s r : ServerDetails IP SD) (pre post : List (String × JSON)) (n : Int)
    (hn : -(2 ^ 63) ≤ n ∧ n < 2 ^ 63)
    (hpost : ∀ kv ∈ post, json.foldName kv.1 ≠ json.foldName "core_number")
    (h : ServerDetails.UnmarshalJSON ip sd s (JSON.obj [("server",
        JSON.obj (pre ++ ("core_number", JSON.str (strconv.FormatInt n)) :: post))])
      = ⟨r, false⟩) :
    r.CoreNumber = n ∧ r.Server.CoreNumber = 0 ∧
    ∀ (b : JSON), (ServerDetails.UnmarshalJSON ip sd s b).failed = false →
      (ServerDetails.UnmarshalJSON ip sd s b).recv.Server.CoreNumber = 0 := by
  rw [ServerDetails_UnmarshalJSON_wrapped] at h
  refine ⟨?_, ?_, ?_⟩
  · cases hd : json.decodeStruct (ServerDetails.fields ip sd)
        (JSON.obj (pre ++ ("core_number", JSON.str (strconv.FormatInt n)) :: post))
        ServerDetails.zero with
    | none => simp [hd] at h
    | some v =>
      rw [hd] at h
      simp only [Outcome.mk.injEq, and_true] at h
      subst h
      simp only [json.decodeStruct, json.decodeMembers_append] at hd
      cases hpre : json.decodeMembers (ServerDetails.fields ip sd) pre ServerDetails.zero with
      | none => simp [hpre] at hd
      | some c =>
        rw [hpre, Option.some_bind, ServerDetails_store_core_number] at hd
        have hq : json.storeIntString (JSON.str (strconv.FormatInt n)) c.CoreNumber = some n :=
          json.storeQuotedInt_FormatInt n c.CoreNumber hn
        rw [hq, Option.some_bind] at hd
        refine json.decodeMembers_invariant_on (ServerDetails.fields ip sd)
          (fun d => d.CoreNumber = n) post _ v ?_ hd rfl
        intro kv hkv f hf j c0 next hs hc
        have hname := json.findField_name _ _ f hf
        have hne : f.name ≠ "core_number" := by
          intro he
          rw [he] at hname
          exact hpost kv hkv hname.symm
        exact ServerDetails_fields_keep_outer ip sd n f
          (json.findField_mem _ _ f hf) hne j c0 next hs hc
  · cases hd : json.decodeStruct (ServerDetails.fields ip sd)
        (JSON.obj (pre ++ ("core_number", JSON.str (strconv.FormatInt n)) :: post))
        ServerDetails.zero with
    | none => simp [hd] at h
    | some v =>
      rw [hd] at h
      simp only [Outcome.mk.injEq, and_true] at h
      subst h
      exact ServerDetails_decode_inner_zero ip sd _ v hd
  · intro b hb
    unfold ServerDetails.UnmarshalJSON at hb ⊢
    cases hv : json.decodeStruct (ServerDetails.local.fields ip sd) b ⟨ServerDetails.zero⟩ with
    | none => simp [hv] at hb
    | some v =>
      simp only []
      have hinv : ∀ f ∈ ServerDetails.local.fields ip sd,
          ∀ (j : JSON) (cur next : ServerDetails.local IP SD), f.store j cur = some next →
            cur.ServerDetails.Server.CoreNumber = 0 →
            next.ServerDetails.Server.CoreNumber = 0 := by
        intro f hf j cur next hs hc
        simp only [ServerDetails.local.fields, List.mem_singleton] at hf
        subst hf
        simp only [Option.map_eq_some'] at hs
        obtain ⟨x, hx, rfl⟩ := hs
        show x.Server.CoreNumber = 0
        cases j with
        | null =>
          simp only [json.decodeStruct, Option.some.injEq] at hx
          rw [← hx]
          exact hc
        | obj ms =>
          exact json.decodeMembers_invariant (ServerDetails.fields ip sd)
            (fun d => d.Server.CoreNumber = 0) (ServerDetails_fields_keep_inner ip sd) ms
            cur.ServerDetails x hx hc
        | bool b => simp [json.decodeStruct] at hx
        | num lit => simp [json.decodeStruct] at hx
        | str s => simp [json.decodeStruct] at hx
        | arr es => simp [json.decodeStruct] at hx
      cases b with
      | null =>
        simp only [json.decodeStruct, Option.some.injEq] at hv
        rw [← hv]
        rfl
      | obj ms =>
        exact json.decodeMembers_invariant (ServerDetails.local.fields ip sd)
          (fun d => d.ServerDetails.Server.CoreNumber = 0) hinv ms ⟨ServerDetails.zero⟩ v hv rfl
      | bool b => simp [json.decodeStruct] at hv
      | num lit => simp [json.decodeStruct] at hv
      | str s => simp [json.decodeStruct] at hv
      | arr es => simp [json.decodeStruct] at hv

/-- Witness of C15: a details body with `core_number` `"4"` between two other
members, the element types instantiated to strings. -/
theorem C15_core_number_outer_only_witness :
    (ServerDetails.UnmarshalJSON (⟨"", json.storeString⟩ : json.Elem String)
      (⟨"", json.storeString⟩ : json.Elem String) ServerDetails.zero
      (JSON.obj [("server", JSON.obj [("uuid", JSON.str "u1"), ("core_number", JSON.str "4"),
        ("hostname", JSON.str "web1")])])).recv.CoreNumber = 4 ∧
    (ServerDetails.UnmarshalJSON (⟨"", json.storeString⟩ : json.Elem String)
      (⟨"", json.storeString⟩ : json.Elem String) ServerDetails.zero
      (JSON.obj [("server", JSON.obj [("uuid", JSON.str "u1"), ("core_number", JSON.str "4"),
        ("hostname", JSON.str "web1")])])).recv.Server.CoreNumber = 0 :=
  have h := C15_core_number_outer_only (⟨"", json.storeString⟩ : json.Elem String)
    (⟨"", json.storeString⟩ : json.Elem String) ServerDetails.zero
    (ServerDetails.UnmarshalJSON (⟨"", json.storeString⟩ : json.Elem String)
      (⟨"", json.storeString⟩ : json.Elem String) ServerDetails.zero
      (JSON.obj [("server", JSON.obj [("uuid", JSON.str "u1"), ("core_number", JSON.str "4"),
        ("hostname", JSON.str "web1")])])).recv
    [("uuid", JSON.str "u1")] [("hostname", JSON.str "web1")] 4 (by decide) (by decide)
    (by decide)
  ⟨h.1, h.2.1⟩

/-- C19: a JSON object without the wrapper key is accepted. For every object
none of whose keys matches `servers` (even ignoring case), and for
`{"servers":{...}}` with no inner key matching `server`, `Servers.UnmarshalJSON`
returns no error and leaves the empty (nil) list in the receiver; for every
object none of whose keys matches `server`, `ServerDetails.UnmarshalJSON`
returns no error and overwrites the receiver, whatever it held, with the zero
value. The objects `{}` and `{"servers":{}}` are instances. -/
theorem C19_missing_wrapper_accepted {IP SD : Type} (ip : json.Elem IP) (sd : json.Elem SD)
    (s : Servers) (d : ServerDetails IP SD) (ms inner : List (String × JSON)) :
    Servers.UnmarshalJSON s (JSON.obj []) = ⟨⟨Slice.nil⟩, false⟩ ∧
    Servers.UnmarshalJSON s (JSON.obj [("servers", JSON.obj [])]) = ⟨⟨Slice.nil⟩, false⟩ ∧
    (Slice.nil : Slice Server).toList = [] ∧
    ServerDetails.UnmarshalJSON ip sd d (JSON.obj []) = ⟨ServerDetails.zero, false⟩ ∧
    ((∀ kv ∈ ms, json.foldName kv.1 ≠ json.foldName "servers") →
      Servers.UnmarshalJSON s (JSON.obj ms) = ⟨⟨Slice.nil⟩, false⟩) ∧
    ((∀ kv ∈ inner, json.foldName kv.1 ≠ json.foldName "server") →
      Servers.UnmarshalJSON s (JSON.obj [("servers", JSON.obj inner)])
        = ⟨⟨Slice.nil⟩, false⟩) ∧
    ((∀ kv ∈ ms, json.foldName kv.1 ≠ json.foldName "server") →
      ServerDetails.UnmarshalJSON ip sd d (JSON.obj ms) = ⟨ServerDetails.zero, false⟩) := by
  refine ⟨rfl, ?_, rfl, rfl, ?_, ?_, ?_⟩
  · simp [Servers.UnmarshalJSON, json.decodeStruct, json.decodeMembers, json.findField,
      Servers.local.fields, serverWrapper.fields]
  · intro h
    have hskip : json.decodeMembers Servers.local.fields ms ⟨⟨Slice.nil⟩⟩
        = some ⟨⟨Slice.nil⟩⟩ := by
      refine json.decodeMembers_skip _ ms _ (fun kv hkv => json.findField_none _ _ ?_)
      intro f hf
      simp only [Servers.local.fields, List.mem_singleton] at hf
      subst hf
      exact fun he => h kv hkv he.symm
    simp only [Servers.UnmarshalJSON, json.decodeStruct, hskip]
  · intro h
    have hskip : json.decodeMembers serverWrapper.fields inner ⟨Slice.nil⟩
        = some ⟨Slice.nil⟩ := by
      refine json.decodeMembers_skip _ inner _ (fun kv hkv => json.findField_none _ _ ?_)
      intro f hf
      simp only [serverWrapper.fields, List.mem_singleton] at hf
      subst hf
      exact fun he => h kv hkv he.symm
    simp only [Servers.UnmarshalJSON, json.decodeStruct, json.decodeMembers, json.findField,
      Servers.local.fields, List.find?, beq_self_eq_true, hskip, Option.map_some']
  · intro h
    have hskip : json.decodeMembers (ServerDetails.local.fields ip sd) ms
        ⟨ServerDetails.zero⟩ = some ⟨ServerDetails.zero⟩ := by
      refine json.decodeMembers_skip _ ms _ (fun kv hkv => json.findField_none _ _ ?_)
      intro f hf
      simp only [ServerDetails.local.fields, List.mem_singleton] at hf
      subst hf
      exact fun he => h kv hkv he.symm
    simp only [ServerDetails.UnmarshalJSON, json.decodeStruct, hskip]

/-- Witness of C19: an error payload in place of the list, decoded over a
receiver that held one server, and in place of the details. -/
theorem C19_missing_wrapper_accepted_witness :
    Servers.UnmarshalJSON ⟨Slice.mk [Server.zero] []⟩
        (JSON.obj [("error", JSON.obj [("error_code", JSON.str "SERVER_NOT_FOUND")])])
      = ⟨⟨Slice.nil⟩, false⟩ ∧
    ServerDetails.UnmarshalJSON (⟨"", json.storeString⟩ : json.Elem String)
        (⟨"", json.storeString⟩ : json.Elem String)
        { (ServerDetails.zero : ServerDetails String String) with CoreNumber := 4 }
        (JSON.obj [("error", JSON.obj [("error_code", JSON.str "SERVER_NOT_FOUND")])])
      = ⟨ServerDetails.zero, false⟩ :=
  have h := C19_missing_wrapper_accepted (⟨"", json.storeString⟩ : json.Elem String)
    (⟨"", json.storeString⟩ : json.Elem String) ⟨Slice.mk [Server.zero] []⟩
    { (ServerDetails.zero : ServerDetails String String) with CoreNumber := 4 }
    [("error", JSON.obj [("error_code", JSON.str "SERVER_NOT_FOUND")])] []
  ⟨h.2.2.2.2.1 (by decide), h.2.2.2.2.2.2 (by decide)⟩

/-- C18: a failing decode leaves the receiver as it was: whenever one of the
six `UnmarshalJSON` methods returns an error, the receiver after the call is
the receiver before the call. -/
theorem C18_decode_failure_atomic {IP SD : Type} (ip : json.Elem IP) (sd : json.Elem SD)
    (b : JSON) (s : Servers) (d : ServerDetails IP SD) (t : TagSlice) (i : IPAddressSlice IP)
    (g : ServerStorageDeviceSlice SD) (k : request.SSHKeySlice) :
    ((Servers.UnmarshalJSON s b).failed = true → (Servers.UnmarshalJSON s b).recv = s) ∧
    ((ServerDetails.UnmarshalJSON ip sd d b).failed = true →
      (ServerDetails.UnmarshalJSON ip sd d b).recv = d) ∧
    ((TagSlice.UnmarshalJSON t b).failed = true → (TagSlice.UnmarshalJSON t b).recv = t) ∧
    ((IPAddressSlice.UnmarshalJSON ip i b).failed = true →
      (IPAddressSlice.UnmarshalJSON ip i b).recv = i) ∧
    ((ServerStorageDeviceSlice.UnmarshalJSON sd g b).failed = true →
      (ServerStorageDeviceSlice.UnmarshalJSON sd g b).recv = g) ∧
    ((request.SSHKeySlice.UnmarshalJSON k b).failed = true →
      (request.SSHKeySlice.UnmarshalJSON k b).recv = k) := by
  refine ⟨?_, ?_, ?_, ?_, ?_, ?_⟩
  · unfold Servers.UnmarshalJSON
    cases json.decodeStruct Servers.local.fields b ⟨⟨Slice.nil⟩⟩ <;> simp
  · unfold ServerDetails.UnmarshalJSON
    cases json.decodeStruct (ServerDetails.local.fields ip sd) b ⟨ServerDetails.zero⟩ <;> simp
  · unfold TagSlice.UnmarshalJSON
    cases json.decodeStruct TagSlice.local.fields b ⟨Slice.nil⟩ <;> simp
  · unfold IPAddressSlice.UnmarshalJSON
    cases json.decodeStruct (IPAddressSlice.local.fields ip) b ⟨Slice.nil⟩ <;> simp
  · unfold ServerStorageDeviceSlice.UnmarshalJSON
    cases json.decodeStruct (ServerStorageDeviceSlice.local.fields sd) b ⟨Slice.nil⟩ <;> simp
  · unfold request.SSHKeySlice.UnmarshalJSON
    cases json.decodeStruct request.SSHKeySlice.local.fields b ⟨Slice.nil⟩ <;> simp

/-- Witness of C18: an array in place of the wrapper object makes
`Servers.UnmarshalJSON` fail, and the list held before is still there. -/
theorem C18_decode_failure_atomic_witness :
    (Servers.UnmarshalJSON ⟨Slice.mk [Server.zero] []⟩ (JSON.arr [])).failed = true ∧
    (Servers.UnmarshalJSON ⟨Slice.mk [Server.zero] []⟩ (JSON.arr [])).recv
      = ⟨Slice.mk [Server.zero] []⟩ :=
  ⟨by decide,
    (C18_decode_failure_atomic (⟨"", json.storeString⟩ : json.Elem String)
      (⟨"", json.storeString⟩ : json.Elem String) (JSON.arr []) ⟨Slice.mk [Server.zero] []⟩
      ServerDetails.zero Slice.nil Slice.nil Slice.nil Slice.nil).1 (by decide)⟩

end upcloud
